import Mathlib

/-!
Verification of the mq document-query engine against its specification.

This file gives a shallow embedding, in Lean 4, of the Go sources of the
mq repository: the MQL query parser (src/mql/parser.go), the query
compiler/executor (src/mql/compiler.go), the document indexer
(src/lib/parser.go), and the tree builder (src/lib/tree.go), together
with the element types (Heading, Section, CodeBlock, Link, Image, Table,
List) from the library.

Embedding conventions:
- Go `int` and `int64` are both embedded as Lean `Int`, but kept apart as
  distinct constructors of `GoValue` because Go interface values carry
  their dynamic type, and the executor compares interface values.
- Go `float64` is embedded as `Rat`; the executor only ever tests floats
  for equality with zero and compares them by order, which the embedding
  preserves on every float the engine can produce from its integer and
  decimal literals.
- Go strings are embedded as Lean `String`; byte-level operations are
  modelled on the character list (exact on ASCII input).
- Pointer structures (the section tree) are embedded by value, or by
  index into an arena for the indexer, following the spec's own design
  note for non-GC targets.
- Go panics are a distinct failure constructor `GoFailure.panic`,
  separate from ordinary error values.
- Go map iteration order is not deterministic; everywhere the source
  ranges over a map, the embedding takes the iteration order as an
  explicit oracle parameter producing some permutation of the entries.
-/

/-- Failure channel of the executor: ordinary error values returned by the
Go code, runtime panics (which the Go code does not catch), and fuel
exhaustion of the embedding's bounded recursion (never reached for the
concrete runs in this file). -/
inductive GoFailure where
  | evalError (msg : String)
  | panic (msg : String)
  | outOfFuel
deriving Repr, DecidableEq

/-- Heading (src/unnamed/part_002): level, text, anchor id and source line.
The `Node ast.Node` back-reference into the goldmark AST is not part of the
query-visible state and is omitted. -/
structure Heading where
  level : Int
  text : String
  id : String
  line : Int
deriving Repr, DecidableEq

/-- CodeBlock (src/unnamed/part_002): language tag, content, and the
(lazily computed) line count field `Lines`. -/
structure CodeBlock where
  language : String
  content : String
  lines : Int
deriving Repr, DecidableEq

/-- Link (src/unnamed/part_002). -/
structure Link where
  text : String
  url : String
deriving Repr, DecidableEq

/-- Image (src/unnamed/part_002). -/
structure Image where
  altText : String
  url : String
  title : String
deriving Repr, DecidableEq

/-- Table (src/unnamed/part_002). -/
structure Table where
  headers : List String
  rows : List (List String)
deriving Repr, DecidableEq

/-- ListItem (src/unnamed/part_002): text, optional task-list check state,
and nested children. -/
inductive MListItem where
  | mk (text : String) (checked : Option Bool) (children : List MListItem)

/-- List element (src/unnamed/part_002), named MList to avoid clashing with
Lean's List. -/
structure MList where
  ordered : Bool
  items : List MListItem

/-- Section (src/unnamed/part_002), named DocSection because `section` is a
Lean keyword. The child sections are owned (embedded by value); the
non-owning parent back-reference is dropped, as the spec's design note
prescribes for acyclic embeddings. `source` is the document source the
section slices its text from (`none` embeds a nil byte slice). -/
inductive DocSection where
  | mk (heading : Heading) (startL : Int) (endL : Int)
       (children : List DocSection) (codeBlocks : List CodeBlock)
       (source : Option String)

def DocSection.heading : DocSection → Heading
  | .mk h _ _ _ _ _ => h

def DocSection.startL : DocSection → Int
  | .mk _ s _ _ _ _ => s

def DocSection.endL : DocSection → Int
  | .mk _ _ e _ _ _ => e

def DocSection.children : DocSection → List DocSection
  | .mk _ _ _ c _ _ => c

def DocSection.codeBlocks : DocSection → List CodeBlock
  | .mk _ _ _ _ cb _ => cb

def DocSection.source : DocSection → Option String
  | .mk _ _ _ _ _ s => s

/-- Section.GetText (src/unnamed/part_002 lines 37-64): slice the source
lines from Start to End, with Start=0 defaulting to 1 and End=0 or past
the end defaulting to the last line; empty when the range is empty or the
source is nil. -/
def DocSection.GetText (s : DocSection) : String :=
  match s.source with
  | none => ""
  | some src =>
    let lines := src.splitOn "\n"
    let totalLines : Int := lines.length
    let start := if s.startL == 0 then 1 else s.startL
    if start > totalLines then ""
    else
      let e := if s.endL == 0 || s.endL > totalLines then totalLines else s.endL
      if e < start then ""
      else
        let sectionLines := (lines.take e.toNat).drop (start - 1).toNat
        String.intercalate "\n" sectionLines

/-- helper `contains` (src/unnamed/part_002 lines 144-151): string slice
membership. -/
def stringSliceContains (slice : List String) (item : String) : Bool :=
  slice.any (fun s => s == item)

/-- Section.GetCodeBlocks (src/unnamed/part_002 lines 67-84): this
section's own blocks filtered by the requested languages (all of them if
no language is given), then recursively the children's. -/
def DocSection.GetCodeBlocks (s : DocSection) (languages : List String) : List CodeBlock :=
  match s with
  | .mk _ _ _ children codeBlocks _ =>
    let own := codeBlocks.filter
      (fun cb => languages.isEmpty || stringSliceContains languages cb.language)
    own ++ children.attach.flatMap
      (fun c => DocSection.GetCodeBlocks c.val languages)
decreasing_by
  have := List.sizeOf_lt_of_mem c.property
  simp only [DocSection.mk.sizeOf_spec]
  omega

/-- CodeBlock.GetLines (src/unnamed/part_002 lines 100-105). The Go method
mutates the receiver: when the `Lines` field is zero it stores the
computed newline count plus one into the field before returning it. The
embedding returns the value together with the updated code block. -/
def CodeBlock.GetLines (c : CodeBlock) : Int × CodeBlock :=
  if c.lines == 0 then
    let n : Int := (c.content.toList.count '\n') + 1
    (n, { c with lines := n })
  else
    (c.lines, c)

/-- TreeNode (src/lib/tree.go lines 24-33). -/
inductive TreeNode where
  | mk (type : String) (text : String) (preview : String)
       (startL : Int) (endL : Int) (level : Int) (meta : String)
       (children : List TreeNode)

/-- TreeResult (src/lib/tree.go lines 36-42). -/
structure TreeResult where
  path : String
  lines : Int
  mode : String
  root : List TreeNode
  metadata : List String

/-- SearchResult (src/lib/tree.go lines 259-264). -/
structure SearchResult where
  file : String
  sectionT : String
  linesT : String
  matchText : String
deriving Repr, DecidableEq

/-- SearchResults (src/lib/tree.go lines 267-270). -/
structure SearchResults where
  query : String
  found : List SearchResult
deriving Repr, DecidableEq

/-- Dynamically typed value flowing through the executor: the embedding of
Go's `interface` value together with its dynamic type. Each Go slice
type the executor can hold is a distinct constructor, because the Go type
switches in compiler.go dispatch on the dynamic type. `vdoc` is the
`*mq.Document` bound to the evaluation context. `vmeta` embeds the
`mq.Metadata` map as an association list in insertion order. -/
inductive GoValue where
  | vnil
  | vbool (b : Bool)
  | vint (n : Int)
  | vint64 (n : Int)
  | vfloat (q : Rat)
  | vstring (s : String)
  | vdoc
  | vheading (h : Heading)
  | vsection (s : DocSection)
  | vcode (c : CodeBlock)
  | vlink (l : Link)
  | vimage (i : Image)
  | vtable (t : Table)
  | vlist (l : MList)
  | vheadings (hs : List Heading)
  | vsections (ss : List DocSection)
  | vcodes (cs : List CodeBlock)
  | vlinks (ls : List Link)
  | vimages (is : List Image)
  | vtables (ts : List Table)
  | vlists (ls : List MList)
  | vstrings (ss : List String)
  | vifaces (vs : List GoValue)
  | vmeta (m : List (String × GoValue))
  | vtree (t : TreeResult)
  | vsearch (r : SearchResults)

/-- toBool (src/mql/compiler.go lines 757-781), named goToBool because Mathlib already exports a toBool. The Go source reads

  case int, int64:
    return val != 0

and in a multi-type case of a Go type switch the bound variable keeps the
interface type, so `val != 0` compares the interface value against the
interface value holding `int(0)`: it is false exactly when the dynamic
type is `int` and the value is 0. An `int64` value therefore never
compares equal to 0 here, whatever its numeric value. The remaining
cases: nil is false, bool is itself, float64 and string compare against
their zero values, slices and maps are truthy when non-empty, and any
other non-nil value is truthy. -/
def goToBool : GoValue → Bool
  | .vnil => false
  | .vbool b => b
  | .vint n => decide (n ≠ 0)
  | .vint64 _ => true
  | .vfloat q => decide (q ≠ 0)
  | .vstring s => decide (s ≠ "")
  | .vheadings hs => decide (hs.length > 0)
  | .vsections ss => decide (ss.length > 0)
  | .vcodes cs => decide (cs.length > 0)
  | .vlinks ls => decide (ls.length > 0)
  | .vimages is => decide (is.length > 0)
  | .vtables ts => decide (ts.length > 0)
  | .vlists ls => decide (ls.length > 0)
  | .vstrings ss => decide (ss.length > 0)
  | .vifaces vs => decide (vs.length > 0)
  | .vmeta m => decide (m.length > 0)
  | _ => true

/-- negate (src/mql/compiler.go lines 854-865): unary minus on the three
numeric dynamic types, an error elsewhere. The Go error text interpolates
the operand's type name, elided here to a fixed marker. -/
def negate : GoValue → Except GoFailure GoValue
  | .vint n => .ok (.vint (-n))
  | .vint64 n => .ok (.vint64 (-n))
  | .vfloat q => .ok (.vfloat (-q))
  | _ => .error (.evalError "Error: cannot negate\nHint: negation (-) only works with numbers")

/-- VisitUnary (src/mql/compiler.go lines 575-589), after the operand has
been evaluated: `!` negates the boolean coercion of the operand, `-`
negates a numeric operand, anything else is an unknown-operator error. -/
def evalUnaryOp (op : String) (operand : GoValue) : Except GoFailure GoValue :=
  if op == "!" then .ok (.vbool (!goToBool operand))
  else if op == "-" then negate operand
  else .error (.evalError ("Error: unknown unary operator: " ++ op ++ "\nSupported operators: !, -"))

/-- The boolean coercion the spec describes for `!`: nil, empty string,
zero number and empty collection are false, everything else true. This is
the claimed behaviour, stated from the spec's words, for comparison with
the source's `toBool`. -/
def specToBool : GoValue → Bool
  | .vnil => false
  | .vbool b => b
  | .vint n => decide (n ≠ 0)
  | .vint64 n => decide (n ≠ 0)
  | .vfloat q => decide (q ≠ 0)
  | .vstring s => decide (s ≠ "")
  | .vheadings hs => decide (hs.length > 0)
  | .vsections ss => decide (ss.length > 0)
  | .vcodes cs => decide (cs.length > 0)
  | .vlinks ls => decide (ls.length > 0)
  | .vimages is => decide (is.length > 0)
  | .vtables ts => decide (ts.length > 0)
  | .vlists ls => decide (ls.length > 0)
  | .vstrings ss => decide (ss.length > 0)
  | .vifaces vs => decide (vs.length > 0)
  | .vmeta m => decide (m.length > 0)
  | _ => true

/-- toInt (src/mql/compiler.go lines 1235-1246): int and int64 convert
directly; float64 converts by Go's float-to-int conversion, which
truncates toward zero; everything else fails. -/
def goToInt : GoValue → Option Int
  | .vint n => some n
  | .vint64 n => some n
  | .vfloat q => some (if q < 0 then ⌈q⌉ else ⌊q⌋)
  | _ => none

/-- Start-bound computation in getSlice (src/mql/compiler.go lines
1206-1215): absent or non-convertible bounds leave 0; a negative
converted bound is clamped to 0. -/
def sliceStartIdx (start : Option GoValue) : Int :=
  match start with
  | none => 0
  | some v =>
    match goToInt v with
    | none => 0
    | some idx => if idx < 0 then 0 else idx

/-- End-bound computation in getSlice (src/mql/compiler.go lines
1217-1226): absent or non-convertible bounds leave the length; a
converted bound greater than the length is clamped down to the length.
Nothing clamps a negative end bound. -/
def sliceEndIdx (length : Int) (e : Option GoValue) : Int :=
  match e with
  | none => length
  | some v =>
    match goToInt v with
    | none => length
    | some idx => if idx > length then length else idx

/-- Core of getSlice (src/mql/compiler.go lines 1197-1233) on a list of
length `length`: compute both indices, pull the start down to the end
when it exceeds it, and call reflect's Slice, which panics unless
0 ≤ start ≤ end ≤ length. Returns the final index pair on success. -/
def sliceIndices (length : Int) (start e : Option GoValue) :
    Except GoFailure (Int × Int) :=
  let startIdx := sliceStartIdx start
  let endIdx := sliceEndIdx length e
  let startIdx := if startIdx > endIdx then endIdx else startIdx
  if 0 ≤ startIdx ∧ startIdx ≤ endIdx ∧ endIdx ≤ length then
    .ok (startIdx, endIdx)
  else
    .error (.panic "reflect.Value.Slice: slice index out of range")

/-- List slicing with the computed index pair. -/
def sliceList {α : Type} (xs : List α) (startIdx endIdx : Int) : List α :=
  (xs.take endIdx.toNat).drop startIdx.toNat

/-- getSlice (src/mql/compiler.go lines 1197-1233) specialised to a
current value that reflect reports as a slice; the executor's dispatch
over the slice-kinds is in `getSliceVal` below. -/
def getSliceCore {α : Type} (xs : List α) (start e : Option GoValue) :
    Except GoFailure (List α) :=
  match sliceIndices (xs.length : Int) start e with
  | .error f => .error f
  | .ok (i, j) => .ok (sliceList xs i j)

/-- getSlice (src/mql/compiler.go lines 1197-1233) on a GoValue: values
whose reflect kind is not Slice or Array (scalars, strings, maps, single
elements, the document) are a cannot-slice error; slice values go through
the clamping core. -/
def getSliceVal (obj : GoValue) (start e : Option GoValue) :
    Except GoFailure GoValue :=
  match obj with
  | .vheadings hs => (getSliceCore hs start e).map .vheadings
  | .vsections ss => (getSliceCore ss start e).map .vsections
  | .vcodes cs => (getSliceCore cs start e).map .vcodes
  | .vlinks ls => (getSliceCore ls start e).map .vlinks
  | .vimages is => (getSliceCore is start e).map .vimages
  | .vtables ts => (getSliceCore ts start e).map .vtables
  | .vlists ls => (getSliceCore ls start e).map .vlists
  | .vstrings ss => (getSliceCore ss start e).map .vstrings
  | .vifaces vs => (getSliceCore vs start e).map .vifaces
  | _ => .error (.evalError "cannot slice type")

/-- Query AST (the QueryNode closed variant of the spec's data model; the
constructor functions NewPipe, NewSelector, NewFilter, NewFunction,
NewBinary, NewLiteral, NewIdentifier, NewIndex, NewSlice are the ones
src/mql/parser.go calls). `qnil` embeds a nil Go QueryNode interface
value: parseProperty discards parseIndex errors with
`node, _ = p.parseIndex(node)`, and the discarded error leaves node nil.
LiteralNode's Kind field is never consulted by the compiler and is
omitted. -/
inductive QueryNode where
  | pipe (left right : QueryNode)
  | selector (name : String) (args : List QueryNode)
  | filter (predicate : QueryNode)
  | function (name : String) (args : List QueryNode)
  | binary (left : QueryNode) (op : String) (right : QueryNode)
  | unary (op : String) (operand : QueryNode)
  | literal (value : GoValue)
  | identifier (name : String)
  | index (object idx : QueryNode)
  | slice (object : QueryNode) (startA : Option QueryNode) (endA : Option QueryNode)
  | qnil

/-- Token kinds of the MQL lexer. The parser (src/mql/parser.go) references
TokenDot, TokenIdentifier, TokenString, TokenNumber, TokenLParen,
TokenRParen, TokenLBracket, TokenRBracket, TokenComma, TokenColon,
TokenPipe, TokenEquals, TokenNotEquals, TokenLessThan, TokenLessEqual,
TokenGreaterThan, TokenGreaterEqual, TokenAnd, TokenOr and TokenEOF.
Modelled from the spec: the lexer file itself is not under src/, and the
spec's lexer section additionally lists the unary operator tokens for `!`
and `-`, embedded here as tnot and tminus. -/
inductive TokenType where
  | tdot | tident | tstring | tnumber
  | tlparen | trparen | tlbracket | trbracket | tcomma | tcolon | tpipe
  | tequals | tnotequals | tless | tlesseq | tgreater | tgreatereq
  | tand | tor | tnot | tminus | teof
deriving Repr, DecidableEq

/-- Token: kind, raw value, and 1-based line/column. -/
structure Token where
  type : TokenType
  value : String
  line : Int
  col : Int
deriving Repr, DecidableEq

/-- The zero-value Token the Go parser returns past the end of the token
stream (Token\x7bType: TokenEOF\x7d). -/
def eofToken : Token := ⟨.teof, "", 0, 0⟩

/-- Parser.current (src/mql/parser.go lines 447-452). -/
def cur (ts : List Token) (pos : Nat) : Token := ts.getD pos eofToken

/-- Parser.peek (src/mql/parser.go lines 455-460). -/
def peekTok (ts : List Token) (pos : Nat) : Token := ts.getD (pos + 1) eofToken

/-- Rendering of a token for %s in parser error messages. The Go code
formats the Token struct; the exact rendering carries no weight in any
claim and is abbreviated to the token's raw text. -/
def tokenRepr (t : Token) : String := t.value

/-- Parser.error (src/mql/parser.go lines 479-483): prefix the message
with the current token's position. -/
def perr (ts : List Token) (pos : Nat) (msg : String) : String :=
  let t := cur ts pos
  "parse error at line " ++ toString t.line ++ ", column " ++ toString t.col ++ ": " ++ msg

/-- Parser.errorWithHint (src/mql/parser.go lines 486-489). -/
def perrHint (ts : List Token) (pos : Nat) (msg hint : String) : String :=
  let t := cur ts pos
  "parse error at line " ++ toString t.line ++ ", column " ++ toString t.col ++ ": " ++ msg ++ "\n" ++ hint

/-- Decimal value of a digit run (the core of strconv parsing on the
lexer's unsigned digit tokens). -/
def digitsToNat (l : List Char) : Nat :=
  l.foldl (fun a c => a * 10 + (c.toNat - 48)) 0

/-- parseNumber (src/mql/parser.go lines 430-442): try int64 first
(strconv.ParseInt, which overflows above 2^63-1 and then falls through),
then float64 for decimals. The lexer only produces unsigned digit runs
with at most one decimal point, so the final invalid-number error is
unreachable from lexed input but kept faithfully. -/
def parseNumber (s : String) : Except String GoValue :=
  let isDigits (l : List Char) : Bool := !l.isEmpty && l.all Char.isDigit
  if isDigits s.toList then
    let n := digitsToNat s.toList
    if (n : Int) ≤ 9223372036854775807 then .ok (.vint64 n)
    else .ok (.vfloat n)
  else
    match s.toList.splitOn '.' with
    | [intPart, fracPart] =>
      if isDigits intPart && isDigits fracPart then
        .ok (.vfloat ((digitsToNat intPart : Rat) +
          (digitsToNat fracPart : Rat) / ((10 : Rat) ^ fracPart.length)))
      else .error ("invalid number: " ++ s)
    | _ => .error ("invalid number: " ++ s)

/-- Result of one Go parser method: the error-or-value outcome together
with the parser position after the call. The Go methods mutate p.pos in
place, and one call site (the index loop in parseProperty) discards the
error and keeps parsing from the mutated position, so the embedding
returns the position on every path. -/
abbrev PRes (α : Type) := Except String α × Nat

/-- Parser.expect (src/mql/parser.go lines 470-476). -/
def expectTok (ts : List Token) (pos : Nat) (ty : TokenType) : PRes Unit :=
  if (cur ts pos).type == ty then (.ok (), pos + 1)
  else (.error (perr ts pos ("expected token, got " ++ tokenRepr (cur ts pos))), pos)

mutual

/-- parseExpression (src/mql/parser.go lines 54-73): a primary followed by
zero or more pipe segments. -/
def parseExpression (fuel : Nat) (ts : List Token) (pos : Nat) : PRes QueryNode :=
  match fuel with
  | 0 => (.error "fuel exhausted", pos)
  | f + 1 =>
    match parsePrimary f ts pos with
    | (.error e, pos') => (.error e, pos')
    | (.ok left, pos') => parsePipeLoop f ts pos' left
termination_by structural fuel

/-- The pipe loop inside parseExpression. -/
def parsePipeLoop (fuel : Nat) (ts : List Token) (pos : Nat) (left : QueryNode) : PRes QueryNode :=
  match fuel with
  | 0 => (.error "fuel exhausted", pos)
  | f + 1 =>
    if (cur ts pos).type == .tpipe then
      match parsePrimary f ts (pos + 1) with
      | (.error e, pos') => (.error e, pos')
      | (.ok right, pos') => parsePipeLoop f ts pos' (.pipe left right)
    else (.ok left, pos)
termination_by structural fuel

/-- parsePrimary (src/mql/parser.go lines 76-119). -/
def parsePrimary (fuel : Nat) (ts : List Token) (pos : Nat) : PRes QueryNode :=
  match fuel with
  | 0 => (.error "fuel exhausted", pos)
  | f + 1 =>
    let token := cur ts pos
    match token.type with
    | .tdot => parseSelector f ts pos
    | .tident =>
      if (peekTok ts pos).type == .tlparen then parseFunction f ts pos
      else (.ok (.identifier token.value), pos + 1)
    | .tlparen =>
      match parseExpression f ts (pos + 1) with
      | (.error e, pos') => (.error e, pos')
      | (.ok expr, pos') =>
        match expectTok ts pos' .trparen with
        | (.error e, pos'') => (.error e, pos'')
        | (.ok _, pos'') => (.ok expr, pos'')
    | .tstring => (.ok (.literal (.vstring token.value)), pos + 1)
    | .tnumber =>
      match parseNumber token.value with
      | .error e => (.error e, pos + 1)
      | .ok num => (.ok (.literal num), pos + 1)
    | _ => (.error (perr ts pos ("unexpected token in primary expression: " ++ tokenRepr token)), pos)
termination_by structural fuel

/-- parseSelector (src/mql/parser.go lines 122-169): a dot, an identifier,
optional arguments; `select`/`filter` become a Filter node and `map` a
Function node, each demanding at least one argument at parse time with a
usage hint. -/
def parseSelector (fuel : Nat) (ts : List Token) (pos : Nat) : PRes QueryNode :=
  match fuel with
  | 0 => (.error "fuel exhausted", pos)
  | f + 1 =>
    match expectTok ts pos .tdot with
    | (.error e, pos') => (.error e, pos')
    | (.ok _, pos') =>
      if (cur ts pos').type == .tident then
        let name := (cur ts pos').value
        let pos' := pos' + 1
        let argsRes : PRes (List QueryNode) :=
          if (cur ts pos').type == .tlparen then parseArguments f ts pos'
          else (.ok [], pos')
        match argsRes with
        | (.error e, pos'') => (.error e, pos'')
        | (.ok args, pos'') =>
          if name == "select" || name == "filter" then
            match args with
            | [] =>
              (.error (perrHint ts pos''
                ("." ++ name ++ " requires a predicate argument")
                ("Usage: ." ++ name ++ "(.property == \"value\")")), pos'')
            | a :: _ => (.ok (.filter a), pos'')
          else if name == "map" then
            match args with
            | [] =>
              (.error (perrHint ts pos''
                "map requires a transformation argument"
                "Usage: .collection | map(.property)"), pos'')
            | _ => (.ok (.function "map" args), pos'')
          else (.ok (.selector name args), pos'')
      else
        (.error (perr ts pos' ("expected identifier after '.', got " ++ tokenRepr (cur ts pos'))), pos')

/-- parseFunction (src/mql/parser.go lines 172-199): bare identifier call.
`select` and `filter` demand one argument at parse time; every other name,
`map` included, becomes a Function node whatever its argument count. -/
def parseFunction (fuel : Nat) (ts : List Token) (pos : Nat) : PRes QueryNode :=
  match fuel with
  | 0 => (.error "fuel exhausted", pos)
  | f + 1 =>
    if (cur ts pos).type == .tident then
      let name := (cur ts pos).value
      let pos' := pos + 1
      match parseArguments f ts pos' with
      | (.error e, pos'') => (.error e, pos'')
      | (.ok args, pos'') =>
        if name == "select" || name == "filter" then
          match args with
          | [] =>
            (.error (perrHint ts pos''
              (name ++ " requires a predicate argument")
              ("Usage: " ++ name ++ "(.property == \"value\")")), pos'')
          | a :: _ => (.ok (.filter a), pos'')
        else (.ok (.function name args), pos'')
    else (.error (perr ts pos ("expected function name, got " ++ tokenRepr (cur ts pos))), pos)

/-- parseArguments (src/mql/parser.go lines 202-237). -/
def parseArguments (fuel : Nat) (ts : List Token) (pos : Nat) : PRes (List QueryNode) :=
  match fuel with
  | 0 => (.error "fuel exhausted", pos)
  | f + 1 =>
    match expectTok ts pos .tlparen with
    | (.error e, pos') => (.error e, pos')
    | (.ok _, pos') =>
      if (cur ts pos').type == .trparen then (.ok [], pos' + 1)
      else parseArgsLoop f ts pos' []
termination_by structural fuel

/-- The argument loop inside parseArguments; arguments accumulate in
order. -/
def parseArgsLoop (fuel : Nat) (ts : List Token) (pos : Nat) (acc : List QueryNode) : PRes (List QueryNode) :=
  match fuel with
  | 0 => (.error "fuel exhausted", pos)
  | f + 1 =>
    match parseComparison f ts pos with
    | (.error e, pos') => (.error e, pos')
    | (.ok arg, pos') =>
      if (cur ts pos').type == .tcomma then parseArgsLoop f ts (pos' + 1) (acc ++ [arg])
      else if (cur ts pos').type == .trparen then (.ok (acc ++ [arg]), pos' + 1)
      else (.error (perr ts pos' ("expected ',' or ')' in argument list, got " ++ tokenRepr (cur ts pos'))), pos')
termination_by structural fuel

/-- parseComparison (src/mql/parser.go lines 246-265). -/
def parseComparison (fuel : Nat) (ts : List Token) (pos : Nat) : PRes QueryNode :=
  match fuel with
  | 0 => (.error "fuel exhausted", pos)
  | f + 1 =>
    match parseLogical f ts pos with
    | (.error e, pos') => (.error e, pos')
    | (.ok left, pos') =>
      let token := cur ts pos'
      match token.type with
      | .tequals | .tnotequals | .tless | .tlesseq | .tgreater | .tgreatereq =>
        match parseLogical f ts (pos' + 1) with
        | (.error e, pos'') => (.error e, pos'')
        | (.ok right, pos'') => (.ok (.binary left token.value right), pos'')
      | _ => (.ok left, pos')
termination_by structural fuel

/-- parseLogical (src/mql/parser.go lines 268-289). -/
def parseLogical (fuel : Nat) (ts : List Token) (pos : Nat) : PRes QueryNode :=
  match fuel with
  | 0 => (.error "fuel exhausted", pos)
  | f + 1 =>
    match parseProperty f ts pos with
    | (.error e, pos') => (.error e, pos')
    | (.ok left, pos') => parseLogicalLoop f ts pos' left
termination_by structural fuel

/-- The and/or loop inside parseLogical. -/
def parseLogicalLoop (fuel : Nat) (ts : List Token) (pos : Nat) (left : QueryNode) : PRes QueryNode :=
  match fuel with
  | 0 => (.error "fuel exhausted", pos)
  | f + 1 =>
    let token := cur ts pos
    if token.type == .tand || token.type == .tor then
      match parseProperty f ts (pos + 1) with
      | (.error e, pos') => (.error e, pos')
      | (.ok right, pos') => parseLogicalLoop f ts pos' (.binary left token.value right)
    else (.ok left, pos)
termination_by structural fuel

/-- parseProperty (src/mql/parser.go lines 292-372). In the dotted and
bare-identifier branches the index loop `node, _ = p.parseIndex(node)`
discards parseIndex errors, leaving a nil node and continuing from
wherever the failed call moved the position. -/
def parseProperty (fuel : Nat) (ts : List Token) (pos : Nat) : PRes QueryNode :=
  match fuel with
  | 0 => (.error "fuel exhausted", pos)
  | f + 1 =>
    let token := cur ts pos
    match token.type with
    | .tdot =>
      if (cur ts (pos + 1)).type == .tident then
        let name := (cur ts (pos + 1)).value
        match parseIndexLoop f ts (pos + 2) (.identifier name) with
        | (.error e, pos') => (.error e, pos')
        | (.ok node, pos') =>
          if (cur ts pos').type == .tlparen then
            match parseArguments f ts pos' with
            | (.error e, pos'') => (.error e, pos'')
            | (.ok args, pos'') => (.ok (.function name args), pos'')
          else (.ok node, pos')
      else
        (.error (perr ts (pos + 1) ("expected property name after '.', got " ++ tokenRepr (cur ts (pos + 1)))), pos + 1)
    | .tident =>
      match parseIndexLoop f ts (pos + 1) (.identifier token.value) with
      | (.error e, pos') => (.error e, pos')
      | (.ok node, pos') =>
        if (cur ts pos').type == .tlparen then
          match parseArguments f ts pos' with
          | (.error e, pos'') => (.error e, pos'')
          | (.ok args, pos'') => (.ok (.function token.value args), pos'')
        else (.ok node, pos')
    | .tstring => (.ok (.literal (.vstring token.value)), pos + 1)
    | .tnumber =>
      match parseNumber token.value with
      | .error e => (.error e, pos + 1)
      | .ok num => (.ok (.literal num), pos + 1)
    | .tlparen =>
      match parseComparison f ts (pos + 1) with
      | (.error e, pos') => (.error e, pos')
      | (.ok expr, pos') =>
        match expectTok ts pos' .trparen with
        | (.error e, pos'') => (.error e, pos'')
        | (.ok _, pos'') => (.ok expr, pos'')
    | _ => (.error (perr ts pos ("unexpected token in property: " ++ tokenRepr token)), pos)
termination_by structural fuel

/-- The index loop in parseProperty (src/mql/parser.go lines 309-311 and
329-332): while the current token is '[', call parseIndex and keep going,
replacing the node with nil when parseIndex failed. The loop itself never
reports an error. -/
def parseIndexLoop (fuel : Nat) (ts : List Token) (pos : Nat) (node : QueryNode) : PRes QueryNode :=
  match fuel with
  | 0 => (.error "fuel exhausted", pos)
  | f + 1 =>
    if (cur ts pos).type == .tlbracket then
      match parseIndex f ts pos node with
      | (.ok node', pos') => parseIndexLoop f ts pos' node'
      | (.error _, pos') => parseIndexLoop f ts pos' .qnil
    else (.ok node, pos)
termination_by structural fuel

/-- parseIndex (src/mql/parser.go lines 375-427). -/
def parseIndex (fuel : Nat) (ts : List Token) (pos : Nat) (object : QueryNode) : PRes QueryNode :=
  match fuel with
  | 0 => (.error "fuel exhausted", pos)
  | f + 1 =>
    match expectTok ts pos .tlbracket with
    | (.error e, pos') => (.error e, pos')
    | (.ok _, pos') =>
      if (cur ts pos').type == .tcolon then
        match parseProperty f ts (pos' + 1) with
        | (.error e, pos'') => (.error e, pos'')
        | (.ok endN, pos'') =>
          match expectTok ts pos'' .trbracket with
          | (.error e, p3) => (.error e, p3)
          | (.ok _, p3) => (.ok (.slice object none (some endN)), p3)
      else
        match parseProperty f ts pos' with
        | (.error e, pos'') => (.error e, pos'')
        | (.ok startN, pos'') =>
          if (cur ts pos'').type == .tcolon then
            if (cur ts (pos'' + 1)).type == .trbracket then
              (.ok (.slice object (some startN) none), pos'' + 2)
            else
              match parseProperty f ts (pos'' + 1) with
              | (.error e, p3) => (.error e, p3)
              | (.ok endN, p3) =>
                match expectTok ts p3 .trbracket with
                | (.error e, p4) => (.error e, p4)
                | (.ok _, p4) => (.ok (.slice object (some startN) (some endN)), p4)
          else
            match expectTok ts pos'' .trbracket with
            | (.error e, p3) => (.error e, p3)
            | (.ok _, p3) => (.ok (.index object startN), p3)

termination_by structural fuel
end

/-- Parser.Parse (src/mql/parser.go lines 39-51): parse an expression and
demand that only EOF remains. The fuel bound comfortably dominates the
recursion depth of the Go parser on the token list. -/
def ParseTokens (ts : List Token) : Except String QueryNode :=
  match parseExpression (16 * (ts.length + 1)) ts 0 with
  | (.error e, _) => .error e
  | (.ok ast, pos) =>
    if (cur ts pos).type == .teof then .ok ast
    else .error (perr ts pos ("unexpected token: " ++ tokenRepr (cur ts pos)))

/-- Character class for starting an identifier. -/
def isIdentStart (c : Char) : Bool := c.isAlpha || c == '_'

/-- Character class for continuing an identifier. -/
def isIdentChar (c : Char) : Bool := c.isAlpha || c.isDigit || c == '_'

/-- Modelled from the spec: the MQL lexer file is not under src/. Per the
spec's lexer section it recognizes `.`, identifiers, double- or
single-quoted strings (no escape processing beyond matching the opening
quote), integer/decimal numbers, parentheses, brackets, comma, colon,
`|`, the comparison operators, the keywords `and`/`or`, and the unary
operators `!` and `-`; each token carries its 1-based line/column; an
unterminated string or an unrecognized character is a LexError that
aborts the whole pass. -/
def lexStep (fuel : Nat) (cs : List Char) (line col : Int) (acc : List Token) :
    Except String (List Token) :=
  match fuel with
  | 0 => .error "lex fuel exhausted"
  | f + 1 =>
    match cs with
    | [] => .ok (acc ++ [⟨.teof, "", line, col⟩])
    | c :: rest =>
      if c == ' ' || c == '\t' || c == '\r' then
        lexStep f rest line (col + 1) acc
      else if c == '\n' then
        lexStep f rest (line + 1) 1 acc
      else if c == '.' then
        lexStep f rest line (col + 1) (acc ++ [⟨.tdot, ".", line, col⟩])
      else if c == '(' then
        lexStep f rest line (col + 1) (acc ++ [⟨.tlparen, "(", line, col⟩])
      else if c == ')' then
        lexStep f rest line (col + 1) (acc ++ [⟨.trparen, ")", line, col⟩])
      else if c == '[' then
        lexStep f rest line (col + 1) (acc ++ [⟨.tlbracket, "[", line, col⟩])
      else if c == ']' then
        lexStep f rest line (col + 1) (acc ++ [⟨.trbracket, "]", line, col⟩])
      else if c == ',' then
        lexStep f rest line (col + 1) (acc ++ [⟨.tcomma, ",", line, col⟩])
      else if c == ':' then
        lexStep f rest line (col + 1) (acc ++ [⟨.tcolon, ":", line, col⟩])
      else if c == '|' then
        lexStep f rest line (col + 1) (acc ++ [⟨.tpipe, "|", line, col⟩])
      else if c == '=' then
        match rest with
        | '=' :: rest' => lexStep f rest' line (col + 2) (acc ++ [⟨.tequals, "==", line, col⟩])
        | _ => .error ("unexpected character: " ++ String.mk [c])
      else if c == '!' then
        match rest with
        | '=' :: rest' => lexStep f rest' line (col + 2) (acc ++ [⟨.tnotequals, "!=", line, col⟩])
        | _ => lexStep f rest line (col + 1) (acc ++ [⟨.tnot, "!", line, col⟩])
      else if c == '<' then
        match rest with
        | '=' :: rest' => lexStep f rest' line (col + 2) (acc ++ [⟨.tlesseq, "<=", line, col⟩])
        | _ => lexStep f rest line (col + 1) (acc ++ [⟨.tless, "<", line, col⟩])
      else if c == '>' then
        match rest with
        | '=' :: rest' => lexStep f rest' line (col + 2) (acc ++ [⟨.tgreatereq, ">=", line, col⟩])
        | _ => lexStep f rest line (col + 1) (acc ++ [⟨.tgreater, ">", line, col⟩])
      else if c == '-' then
        lexStep f rest line (col + 1) (acc ++ [⟨.tminus, "-", line, col⟩])
      else if c == '"' || c == '\'' then
        let body := rest.takeWhile (fun d => d != c)
        let remaining := rest.drop body.length
        match remaining with
        | [] => .error "unterminated string"
        | _ :: rest' =>
          lexStep f rest' line (col + (body.length : Int) + 2)
            (acc ++ [⟨.tstring, String.mk body, line, col⟩])
      else if c.isDigit then
        let digits := (c :: rest).takeWhile Char.isDigit
        let afterInt := (c :: rest).drop digits.length
        match afterInt with
        | '.' :: d :: _ =>
          if d.isDigit then
            let frac := (afterInt.drop 1).takeWhile Char.isDigit
            let text := digits ++ '.' :: frac
            lexStep f ((c :: rest).drop text.length) line (col + (text.length : Int))
              (acc ++ [⟨.tnumber, String.mk text, line, col⟩])
          else
            lexStep f afterInt line (col + (digits.length : Int))
              (acc ++ [⟨.tnumber, String.mk digits, line, col⟩])
        | _ =>
          lexStep f afterInt line (col + (digits.length : Int))
            (acc ++ [⟨.tnumber, String.mk digits, line, col⟩])
      else if isIdentStart c then
        let word := (c :: rest).takeWhile isIdentChar
        let ty : TokenType :=
          if String.mk word == "and" then .tand
          else if String.mk word == "or" then .tor
          else .tident
        lexStep f ((c :: rest).drop word.length) line (col + (word.length : Int))
          (acc ++ [⟨ty, String.mk word, line, col⟩])
      else .error ("unexpected character: " ++ String.mk [c])

/-- Lex: tokenize a whole query string (see lexStep); named LexQuery here
because Lean's library already uses the name Lex. -/
def LexQuery (s : String) : Except String (List Token) :=
  lexStep (s.length + 1) s.toList 1 1 []

/-- ParseString (src/mql/parser.go lines 29-36): lex then parse. -/
def ParseString (query : String) : Except String QueryNode :=
  match LexQuery query with
  | .error e => .error ("lexing failed: " ++ e)
  | .ok tokens => ParseTokens tokens

/-- A query AST containing no Unary node anywhere. -/
inductive UnaryFree : QueryNode → Prop where
  | pipe {l r} : UnaryFree l → UnaryFree r → UnaryFree (.pipe l r)
  | selector {n args} : (∀ a ∈ args, UnaryFree a) → UnaryFree (.selector n args)
  | filter {p} : UnaryFree p → UnaryFree (.filter p)
  | function {n args} : (∀ a ∈ args, UnaryFree a) → UnaryFree (.function n args)
  | binary {l op r} : UnaryFree l → UnaryFree r → UnaryFree (.binary l op r)
  | literal {v} : UnaryFree (.literal v)
  | identifier {n} : UnaryFree (.identifier n)
  | index {o i} : UnaryFree o → UnaryFree i → UnaryFree (.index o i)
  | slice {o s e} : UnaryFree o → (∀ n ∈ s.toList, UnaryFree n) →
      (∀ n ∈ e.toList, UnaryFree n) → UnaryFree (.slice o s e)
  | qnil : UnaryFree .qnil

/-- Helper: a parse outcome whose success value satisfies P. -/
def PSat {α : Type} (P : α → Prop) (r : PRes α) : Prop :=
  ∀ v p, r = (.ok v, p) → P v

/-- Every parser entry point only ever builds Pipe, Selector, Filter,
Function, Binary, Literal, Identifier, Index and Slice nodes (and nil):
no code path of src/mql/parser.go constructs a Unary node. Proved
simultaneously for all the mutually recursive parser functions by
induction on the fuel bound. -/
theorem parse_unaryFree (f : Nat) :
    (∀ ts pos, PSat UnaryFree (parseExpression f ts pos)) ∧
    (∀ ts pos left, UnaryFree left → PSat UnaryFree (parsePipeLoop f ts pos left)) ∧
    (∀ ts pos, PSat UnaryFree (parsePrimary f ts pos)) ∧
    (∀ ts pos, PSat UnaryFree (parseSelector f ts pos)) ∧
    (∀ ts pos, PSat UnaryFree (parseFunction f ts pos)) ∧
    (∀ ts pos, PSat (fun args => ∀ a ∈ args, UnaryFree a) (parseArguments f ts pos)) ∧
    (∀ ts pos acc, (∀ a ∈ acc, UnaryFree a) →
      PSat (fun args => ∀ a ∈ args, UnaryFree a) (parseArgsLoop f ts pos acc)) ∧
    (∀ ts pos, PSat UnaryFree (parseComparison f ts pos)) ∧
    (∀ ts pos, PSat UnaryFree (parseLogical f ts pos)) ∧
    (∀ ts pos left, UnaryFree left → PSat UnaryFree (parseLogicalLoop f ts pos left)) ∧
    (∀ ts pos, PSat UnaryFree (parseProperty f ts pos)) ∧
    (∀ ts pos node, UnaryFree node → PSat UnaryFree (parseIndexLoop f ts pos node)) ∧
    (∀ ts pos object, UnaryFree object → PSat UnaryFree (parseIndex f ts pos object)) := by
  induction f with
  | zero =>
    refine ⟨?_, ?_, ?_, ?_, ?_, ?_, ?_, ?_, ?_, ?_, ?_, ?_, ?_⟩ <;>
      intro ts pos <;> intros <;>
      simp_all [PSat, parseExpression, parsePipeLoop, parsePrimary, parseSelector,
        parseFunction, parseArguments, parseArgsLoop, parseComparison, parseLogical,
        parseLogicalLoop, parseProperty, parseIndexLoop, parseIndex]
  | succ f ih =>
    obtain ⟨ihE, ihPL, ihP, ihS, ihF, ihA, ihAL, ihC, ihL, ihLL, ihProp, ihIL, ihI⟩ := ih
    refine ⟨?_, ?_, ?_, ?_, ?_, ?_, ?_, ?_, ?_, ?_, ?_, ?_, ?_⟩
    -- parseExpression
    · intro ts pos v p h
      simp only [parseExpression] at h
      split at h
      · simp at h
      · exact ihPL _ _ _ (ihP _ _ _ _ (by assumption)) _ _ h
    -- parsePipeLoop
    · intro ts pos left hleft v p h
      simp only [parsePipeLoop] at h
      split at h
      · split at h
        · simp at h
        · rename_i right pos' hpr
          exact ihPL _ _ _ (UnaryFree.pipe hleft (ihP _ _ _ _ hpr)) _ _ h
      · simp only [Prod.mk.injEq, Except.ok.injEq] at h
        exact h.1 ▸ hleft
    -- parsePrimary
    · intro ts pos v p h
      simp only [parsePrimary] at h
      split at h
      · exact ihS _ _ _ _ h
      · split at h
        · exact ihF _ _ _ _ h
        · simp only [Prod.mk.injEq, Except.ok.injEq] at h
          exact h.1 ▸ UnaryFree.identifier
      · split at h
        · simp at h
        · split at h
          · simp at h
          · simp only [Prod.mk.injEq, Except.ok.injEq] at h
            exact h.1 ▸ ihE _ _ _ _ (by assumption)
      · simp only [Prod.mk.injEq, Except.ok.injEq] at h
        exact h.1 ▸ UnaryFree.literal
      · split at h
        · simp at h
        · simp only [Prod.mk.injEq, Except.ok.injEq] at h
          exact h.1 ▸ UnaryFree.literal
      · simp at h
    -- parseSelector
    · intro ts pos v p h
      simp only [parseSelector] at h
      split at h
      · simp at h
      · split at h
        · split at h
          · simp at h
          · rename_i args pos'' hargs
            have hargsUF : ∀ a ∈ args, UnaryFree a := by
              split at hargs
              · exact ihA _ _ _ _ hargs
              · simp only [Prod.mk.injEq, Except.ok.injEq] at hargs
                simp [← hargs.1]
            split at h
            · split at h
              · simp at h
              · simp only [Prod.mk.injEq, Except.ok.injEq] at h
                rename_i a rest
                exact h.1 ▸ UnaryFree.filter (hargsUF a (by simp))
            · split at h
              · split at h
                · simp at h
                · simp only [Prod.mk.injEq, Except.ok.injEq] at h
                  exact h.1 ▸ UnaryFree.function hargsUF
              · simp only [Prod.mk.injEq, Except.ok.injEq] at h
                exact h.1 ▸ UnaryFree.selector hargsUF
        · simp at h
    -- parseFunction
    · intro ts pos v p h
      simp only [parseFunction] at h
      split at h
      · split at h
        · simp at h
        · rename_i args pos'' hargs
          have hargsUF : ∀ a ∈ args, UnaryFree a := ihA _ _ _ _ hargs
          split at h
          · split at h
            · simp at h
            · simp only [Prod.mk.injEq, Except.ok.injEq] at h
              rename_i a rest
              exact h.1 ▸ UnaryFree.filter (hargsUF a (by simp))
          · simp only [Prod.mk.injEq, Except.ok.injEq] at h
            exact h.1 ▸ UnaryFree.function hargsUF
      · simp at h
    -- parseArguments
    · intro ts pos v p h
      simp only [parseArguments] at h
      split at h
      · simp at h
      · split at h
        · simp only [Prod.mk.injEq, Except.ok.injEq] at h
          simp [← h.1]
        · exact ihAL _ _ _ (by simp) _ _ h
    -- parseArgsLoop
    · intro ts pos acc hacc v p h
      simp only [parseArgsLoop] at h
      split at h
      · simp at h
      · rename_i arg pos' harg
        have hargUF := ihC _ _ _ _ harg
        have hext : ∀ a ∈ acc ++ [arg], UnaryFree a := by
          intro a ha
          rcases List.mem_append.mp ha with h1 | h1
          · exact hacc a h1
          · simp at h1; exact h1 ▸ hargUF
        split at h
        · exact ihAL _ _ _ hext _ _ h
        · split at h
          · simp only [Prod.mk.injEq, Except.ok.injEq] at h
            exact h.1 ▸ hext
          · simp at h
    -- parseComparison
    · intro ts pos v p h
      simp only [parseComparison] at h
      split at h
      · simp at h
      · rename_i left pos' hleft
        have hleftUF := ihL _ _ _ _ hleft
        split at h
        case _ =>
          split at h
          · simp at h
          · rename_i right pos'' hright
            simp only [Prod.mk.injEq, Except.ok.injEq] at h
            exact h.1 ▸ UnaryFree.binary hleftUF (ihL _ _ _ _ hright)
        case _ =>
          split at h
          · simp at h
          · rename_i right pos'' hright
            simp only [Prod.mk.injEq, Except.ok.injEq] at h
            exact h.1 ▸ UnaryFree.binary hleftUF (ihL _ _ _ _ hright)
        case _ =>
          split at h
          · simp at h
          · rename_i right pos'' hright
            simp only [Prod.mk.injEq, Except.ok.injEq] at h
            exact h.1 ▸ UnaryFree.binary hleftUF (ihL _ _ _ _ hright)
        case _ =>
          split at h
          · simp at h
          · rename_i right pos'' hright
            simp only [Prod.mk.injEq, Except.ok.injEq] at h
            exact h.1 ▸ UnaryFree.binary hleftUF (ihL _ _ _ _ hright)
        case _ =>
          split at h
          · simp at h
          · rename_i right pos'' hright
            simp only [Prod.mk.injEq, Except.ok.injEq] at h
            exact h.1 ▸ UnaryFree.binary hleftUF (ihL _ _ _ _ hright)
        case _ =>
          split at h
          · simp at h
          · rename_i right pos'' hright
            simp only [Prod.mk.injEq, Except.ok.injEq] at h
            exact h.1 ▸ UnaryFree.binary hleftUF (ihL _ _ _ _ hright)
        case _ =>
          simp only [Prod.mk.injEq, Except.ok.injEq] at h
          exact h.1 ▸ hleftUF
    -- parseLogical
    · intro ts pos v p h
      simp only [parseLogical] at h
      split at h
      · simp at h
      · rename_i left pos' hleft
        exact ihLL _ _ _ (ihProp _ _ _ _ hleft) _ _ h
    -- parseLogicalLoop
    · intro ts pos left hleft v p h
      simp only [parseLogicalLoop] at h
      split at h
      · split at h
        · simp at h
        · rename_i right pos' hright
          exact ihLL _ _ _ (UnaryFree.binary hleft (ihProp _ _ _ _ hright)) _ _ h
      · simp only [Prod.mk.injEq, Except.ok.injEq] at h
        exact h.1 ▸ hleft
    -- parseProperty
    · intro ts pos v p h
      simp only [parseProperty] at h
      split at h
      · split at h
        · split at h
          · simp at h
          · rename_i node pos' hnode
            have hnodeUF := ihIL _ _ _ UnaryFree.identifier _ _ hnode
            split at h
            · split at h
              · simp at h
              · rename_i args pos'' hargs
                simp only [Prod.mk.injEq, Except.ok.injEq] at h
                exact h.1 ▸ UnaryFree.function (ihA _ _ _ _ hargs)
            · simp only [Prod.mk.injEq, Except.ok.injEq] at h
              exact h.1 ▸ hnodeUF
        · simp at h
      · split at h
        · simp at h
        · rename_i node pos' hnode
          have hnodeUF := ihIL _ _ _ UnaryFree.identifier _ _ hnode
          split at h
          · split at h
            · simp at h
            · rename_i args pos'' hargs
              simp only [Prod.mk.injEq, Except.ok.injEq] at h
              exact h.1 ▸ UnaryFree.function (ihA _ _ _ _ hargs)
          · simp only [Prod.mk.injEq, Except.ok.injEq] at h
            exact h.1 ▸ hnodeUF
      · simp only [Prod.mk.injEq, Except.ok.injEq] at h
        exact h.1 ▸ UnaryFree.literal
      · split at h
        · simp at h
        · simp only [Prod.mk.injEq, Except.ok.injEq] at h
          exact h.1 ▸ UnaryFree.literal
      · split at h
        · simp at h
        · rename_i expr pos' hpe
          split at h
          · simp at h
          · simp only [Prod.mk.injEq, Except.ok.injEq] at h
            exact h.1 ▸ ihC _ _ _ _ hpe
      · simp at h
    -- parseIndexLoop
    · intro ts pos node hnode v p h
      simp only [parseIndexLoop] at h
      split at h
      · split at h
        · rename_i node' pos' hidx
          exact ihIL _ _ _ (ihI _ _ _ hnode _ _ hidx) _ _ h
        · exact ihIL _ _ _ UnaryFree.qnil _ _ h
      · simp only [Prod.mk.injEq, Except.ok.injEq] at h
        exact h.1 ▸ hnode
    -- parseIndex
    · intro ts pos object hobj v p h
      simp only [parseIndex] at h
      split at h
      · simp at h
      · split at h
        · split at h
          · simp at h
          · rename_i endN pos'' hend
            split at h
            · simp at h
            · simp only [Prod.mk.injEq, Except.ok.injEq] at h
              refine h.1 ▸ UnaryFree.slice hobj (by simp) ?_
              simp only [Option.toList_some, List.mem_singleton]
              intro n hn
              exact hn ▸ ihProp _ _ _ _ hend
        · split at h
          · simp at h
          · rename_i startN pos'' hstart
            have hstartUF := ihProp _ _ _ _ hstart
            split at h
            · split at h
              · simp only [Prod.mk.injEq, Except.ok.injEq] at h
                refine h.1 ▸ UnaryFree.slice hobj ?_ (by simp)
                simp only [Option.toList_some, List.mem_singleton]
                intro n hn
                exact hn ▸ hstartUF
              · split at h
                · simp at h
                · rename_i endN p3 hend
                  split at h
                  · simp at h
                  · simp only [Prod.mk.injEq, Except.ok.injEq] at h
                    refine h.1 ▸ UnaryFree.slice hobj ?_ ?_ <;>
                      simp only [Option.toList_some, List.mem_singleton] <;>
                      intro n hn
                    · exact hn ▸ hstartUF
                    · exact hn ▸ ihProp _ _ _ _ hend
            · split at h
              · simp at h
              · simp only [Prod.mk.injEq, Except.ok.injEq] at h
                exact h.1 ▸ UnaryFree.index hobj hstartUF

/-- C1: the claim says some well-formed query applying `!` or `-` lexes
and parses into a Unary node. It is false at the claim's own example
shape: negating a predicate lexes fine (the reported failure is a parse
error, not a lexing-failed error) but parsing rejects the `!` token, and
likewise `-`. parsePrimary and parseProperty have no case for the unary
operator tokens. -/
theorem C1_unary_query_is_parse_error :
    ParseString ".headings | filter(!.level)" =
      .error "parse error at line 1, column 20: unexpected token in property: !" ∧
    ParseString ".headings | filter(-1)" =
      .error "parse error at line 1, column 20: unexpected token in property: -" := by
  constructor <;> rfl

/-- C1 amended: no query ever parses to an AST containing a Unary node;
every code path of the parser (src/mql/parser.go) builds only the other
node kinds, so the executor's VisitUnary is unreachable from parsed
queries. -/
theorem C1_parse_never_produces_unary (ts : List Token) (ast : QueryNode)
    (h : ParseTokens ts = .ok ast) : UnaryFree ast := by
  unfold ParseTokens at h
  split at h
  · simp at h
  · split at h
    · rename_i hparse _
      simp only [Except.ok.injEq] at h
      exact h ▸ (parse_unaryFree _).1 _ _ _ _ hparse
    · simp at h

/-- C1 witness: the amended theorem applied to the tokens of the query
`.headings`. -/
theorem C1_witness : UnaryFree (QueryNode.selector "headings" []) :=
  C1_parse_never_produces_unary [⟨.tdot, ".", 1, 1⟩, ⟨.tident, "headings", 1, 2⟩] _ rfl

/-- C2: the claim says `!` negates the boolean coercion under which every
zero number is false, and in particular that `!0` yields true for the
number 0 produced by the query number parser. parseNumber produces an
int64, and toBool's multi-type case `case int, int64: return val != 0`
compares the interface value against int(0), so int64(0) is truthy and
`!0` evaluates to false. The second conjunct isolates the disagreement:
the source's toBool (goToBool here) matches the spec's coercion on every value except
exactly int64 zero. -/
theorem C2_bang_int64_zero_yields_false :
    evalUnaryOp "!" (.vint64 0) = .ok (.vbool false) ∧
    parseNumber "0" = .ok (.vint64 0) ∧
    (∀ v : GoValue, goToBool v = specToBool v ↔ v ≠ .vint64 0) := by
  refine ⟨rfl, rfl, ?_⟩
  intro v
  cases v <;> simp [goToBool, specToBool]

/-- C3 counterexample: slicing a 3-element collection with end bound -1
panics inside reflect.Value.Slice. getSlice clamps a negative start up to
0 and a too-large end down to the length, but nothing clamps a negative
end: the start is pulled down to the negative end and reflect panics. -/
theorem C3_negative_end_bound_panics :
    getSliceVal (.vstrings ["a", "b", "c"]) none (some (.vint64 (-1))) =
      .error (.panic "reflect.Value.Slice: slice index out of range") := rfl

/-- Whether the end bound of a slice is absent, not convertible to an
integer, or converts to a nonnegative integer — the condition under which
getSlice cannot reach the reflect panic. -/
def endBoundOk (e : Option GoValue) : Bool :=
  match e with
  | none => true
  | some v =>
    match goToInt v with
    | none => true
    | some k => decide (0 ≤ k)

/-- C3 amended: for every sequence and every pair of bounds whose end
bound (when present and integer-convertible) is nonnegative, getSlice
succeeds with the sublist between the effective indices, both of which
lie in [0, n]; the start bound is clamped below at 0, the end bound is
clamped above at n, a start beyond the end is pulled down to the end, and
a clamped start at or past the end yields the empty sequence. A negative
end bound escapes the clamping and panics (see the counterexample). -/
theorem C3_slice_clamps_and_never_fails {α : Type} (xs : List α) (s e : Option GoValue)
    (he : endBoundOk e = true) :
    getSliceCore xs s e =
      .ok (sliceList xs (min (sliceStartIdx s) (sliceEndIdx (xs.length : Int) e))
        (sliceEndIdx (xs.length : Int) e)) ∧
    0 ≤ sliceStartIdx s ∧
    0 ≤ sliceEndIdx (xs.length : Int) e ∧
    sliceEndIdx (xs.length : Int) e ≤ (xs.length : Int) ∧
    (sliceStartIdx s ≥ sliceEndIdx (xs.length : Int) e →
      sliceList xs (min (sliceStartIdx s) (sliceEndIdx (xs.length : Int) e))
        (sliceEndIdx (xs.length : Int) e) = []) := by
  have hstart : 0 ≤ sliceStartIdx s := by
    unfold sliceStartIdx
    split
    · omega
    · split
      · omega
      · split <;> omega
  have hend : 0 ≤ sliceEndIdx (xs.length : Int) e ∧ sliceEndIdx (xs.length : Int) e ≤ (xs.length : Int) := by
    cases e with
    | none => simp [sliceEndIdx]
    | some v =>
      simp only [sliceEndIdx]
      cases hgi : goToInt v with
      | none => simp
      | some k =>
        have hk : 0 ≤ k := by
          have := he
          simp only [endBoundOk, hgi] at this
          exact of_decide_eq_true this
        simp only
        split <;> omega
  refine ⟨?_, hstart, hend.1, hend.2, ?_⟩
  · unfold getSliceCore sliceIndices
    have hcond : (if sliceStartIdx s > sliceEndIdx (xs.length : Int) e
        then sliceEndIdx (xs.length : Int) e else sliceStartIdx s) =
        min (sliceStartIdx s) (sliceEndIdx (xs.length : Int) e) := by
      split <;> omega
    simp only [hcond]
    have : (0 ≤ min (sliceStartIdx s) (sliceEndIdx (xs.length : Int) e) ∧
        min (sliceStartIdx s) (sliceEndIdx (xs.length : Int) e) ≤ sliceEndIdx (xs.length : Int) e ∧
        sliceEndIdx (xs.length : Int) e ≤ (xs.length : Int)) := by
      refine ⟨le_min hstart hend.1, min_le_right _ _, hend.2⟩
    rw [if_pos this]
  · intro hge
    have : min (sliceStartIdx s) (sliceEndIdx (xs.length : Int) e) =
        sliceEndIdx (xs.length : Int) e := by omega
    rw [this]
    unfold sliceList
    have : ((xs.take (sliceEndIdx (xs.length : Int) e).toNat).length) ≤
        (sliceEndIdx (xs.length : Int) e).toNat := by
      simp [List.length_take]
    exact List.drop_eq_nil_of_le this

/-- C3 witness: the spec's own example, a 3-element collection sliced
[5:2], comes back as the empty sequence without an error. -/
theorem C3_witness :
    getSliceCore ["a", "b", "c"] (some (.vint64 5)) (some (.vint64 2)) = .ok [] ∧
    endBoundOk (some (.vint64 2)) = true := by
  have h := C3_slice_clamps_and_never_fails ["a", "b", "c"]
    (some (.vint64 5)) (some (.vint64 2)) rfl
  exact ⟨h.1, rfl⟩

/-- strings.Contains modelled on character lists: does the first list
contain the second as a contiguous sublist? -/
def listContainsSub (hay needle : List Char) : Bool :=
  match hay with
  | [] => needle.isEmpty
  | _ :: t => needle.isPrefixOf hay || listContainsSub t needle

/-- findClosestMatch (src/mql/compiler.go lines 303-343): case-insensitive
prefix/suffix match, then singular/plural toggle, then substring
containment in either direction; first hit wins, empty string when
nothing hits. -/
def findClosestMatch (input0 : String) (candidates : List String) : String :=
  let input := input0.toLower
  let strContains (a b : String) : Bool := listContainsSub a.toList b.toList
  let phase1 := candidates.find? (fun candidate =>
    let lower := candidate.toLower
    lower.startsWith input || input.startsWith lower ||
    lower.endsWith input || input.endsWith lower)
  match phase1 with
  | some c => c
  | none =>
    let phase2 :=
      if !(input.endsWith "s") then
        candidates.find? (fun candidate => candidate.toLower == input ++ "s")
      else
        candidates.find? (fun candidate => candidate.toLower == input.dropRight 1)
    match phase2 with
    | some c => c
    | none =>
      match candidates.find? (fun candidate =>
          strContains candidate.toLower input || strContains input candidate.toLower) with
      | some c => c
      | none => ""

/-- The CodeBlock case of getProperty (src/mql/compiler.go lines 693-708),
with the receiver state threaded through because the `lines` property
calls the mutating GetLines. -/
def getPropertyCodeBlock (c : CodeBlock) (name : String) :
    Except GoFailure GoValue × CodeBlock :=
  if name == "language" then (.ok (.vstring c.language), c)
  else if name == "content" then (.ok (.vstring c.content), c)
  else if name == "lines" then
    let r := c.GetLines
    (.ok (.vint r.1), r.2)
  else
    let suggestion := findClosestMatch name ["language", "content", "lines"]
    if suggestion != "" then
      (.error (.evalError ("Error: code block has no property: ." ++ name ++
        "\nDid you mean: ." ++ suggestion ++ "?\nAvailable: .language, .content, .lines")), c)
    else
      (.error (.evalError ("Error: code block has no property: ." ++ name ++
        "\nAvailable: .language, .content, .lines")), c)

/-- C5 counterexample: reading the `lines` property of a code block whose
Lines field is zero (as the indexer produces for an empty fenced block,
src/lib/parser.go extractCodeBlock with lines.Len() = 0) writes the
computed line count back into the block: the CodeBlock differs before and
after the property access. -/
theorem C5_lines_access_mutates_codeblock :
    (getPropertyCodeBlock ⟨"go", "", 0⟩ "lines").2 = ⟨"go", "", 1⟩ ∧
    (⟨"go", "", 1⟩ : CodeBlock) ≠ ⟨"go", "", 0⟩ := by
  exact ⟨rfl, by decide⟩

/-- C5 amended: property access on a code block leaves the block unchanged
in every case except exactly one: reading `lines` when the Lines field is
zero, which memoizes the newline count plus one into the field. No other
property of any entity is written by evaluation. -/
theorem C5_property_access_mutation_characterised (c : CodeBlock) (name : String) :
    (getPropertyCodeBlock c name).2 =
      if name = "lines" ∧ c.lines = 0 then
        { c with lines := (c.content.toList.count '\n') + 1 }
      else c := by
  unfold getPropertyCodeBlock
  by_cases h1 : name = "language"
  · subst h1; simp
  · by_cases h2 : name = "content"
    · subst h2; simp
    · by_cases h3 : name = "lines"
      · subst h3
        simp only [h1, h2]
        simp only [beq_iff_eq, if_neg h1, if_neg h2, if_pos rfl]
        unfold CodeBlock.GetLines
        by_cases h4 : c.lines = 0
        · simp [h4]
        · simp [h4]
      · simp only [beq_iff_eq, if_neg h1, if_neg h2, if_neg h3]
        have : ¬(name = "lines" ∧ c.lines = 0) := fun hc => h3 hc.1
        rw [if_neg this]
        split <;> rfl

/-- A heading event of the indexer's AST walk (src/lib/parser.go lines
126-171): the heading's level and its resolved 1-based source line (0
when the goldmark node exposed no line, which the walk leaves at the
zero value). Leaf content events (code blocks, links, tables, lists)
never touch the section stack's Start/End/Children bookkeeping and are
not part of this model. -/
structure HeadingEv where
  level : Int
  line : Int
deriving Repr, DecidableEq

instance : Inhabited HeadingEv := ⟨⟨0, 0⟩⟩

/-- One arena slot of the indexer state: the spec's design note prescribes
a flat arena with integer parent/child indices for non-GC embeddings of
the Section graph; level and line are copied from the heading event,
startL/endL are Section.Start/Section.End, childrenIdx the indices of the
child sections in insertion order. -/
structure SecState where
  level : Int
  line : Int
  startL : Int
  endL : Int
  parent : Option Nat
  childrenIdx : List Nat
deriving Repr, DecidableEq

/-- The all-zero arena slot. -/
def emptySec : SecState := ⟨0, 0, 0, 0, none, []⟩

/-- Indexer state: the arena (as a function from indices, of which only
the first `size` are live) and the open-section stack, topmost first
(the Go slice keeps the top at the highest index; the list here keeps it
at the head). -/
structure IdxState where
  size : Nat
  secs : Nat → SecState
  stack : List Nat

/-- The pop-and-close loop of buildIndexes (src/lib/parser.go lines
150-158): while the stack's top has level ≥ the new heading's level,
set its End to one line before the new heading (only when that heading
has a positive line) and pop it. -/
def closeSections (secs : Nat → SecState) (stack : List Nat) (lvl line : Int) :
    (Nat → SecState) × List Nat :=
  match stack with
  | [] => (secs, [])
  | top :: rest =>
    if (secs top).level ≥ lvl then
      let s := secs top
      let s' := if line > 0 then { s with endL := line - 1 } else s
      closeSections (Function.update secs top s') rest lvl line
    else (secs, top :: rest)

/-- One heading step of buildIndexes (src/lib/parser.go lines 127-170):
close deeper-or-equal open sections, create the new section starting at
the heading's line with End not yet set, parent it under whatever is now
on top of the stack (recording it in the parent's child list), and push
it. -/
def stepHeading (st : IdxState) (ev : HeadingEv) : IdxState :=
  let r := closeSections st.secs st.stack ev.level ev.line
  let secs1 := r.1
  let stack1 := r.2
  let idx := st.size
  let parent := stack1.head?
  let newSec : SecState := ⟨ev.level, ev.line, ev.line, 0, parent, []⟩
  let secs2 := Function.update secs1 idx newSec
  let secs3 :=
    match parent with
    | none => secs2
    | some p =>
      Function.update secs2 p { secs2 p with childrenIdx := (secs2 p).childrenIdx ++ [idx] }
  ⟨st.size + 1, secs3, idx :: stack1⟩

/-- The initial indexer state. -/
def initIdx : IdxState := ⟨0, fun _ => emptySec, []⟩

/-- The AST walk of buildIndexes restricted to its heading events. -/
def runIndexer (events : List HeadingEv) : IdxState :=
  events.foldl stepHeading initIdx

/-- buildIndexes (src/lib/parser.go lines 113-238): walk the heading
events, then run the cleanup pass (lines 229-236) replacing every End
that is still ≤ 0 by the document's total line count. Returns the arena
in creation order. -/
def buildIndexes (events : List HeadingEv) (totalLines : Int) : List SecState :=
  let st := runIndexer events
  (List.range st.size).map (fun i =>
    let s := st.secs i
    if s.endL ≤ 0 then { s with endL := totalLines } else s)

/-- Well-formed heading input, as the goldmark walk produces it for a
markdown document: heading lines strictly increase in document order, and
every heading line is between 1 and the total line count. -/
def LinesOk (events : List HeadingEv) (totalLines : Int) : Prop :=
  List.Pairwise (fun a b => a.line < b.line) events ∧
  (∀ e ∈ events, 1 ≤ e.line ∧ e.line ≤ totalLines)

/-- The C7 fold invariant: lb bounds every recorded start line from
above; every start is at least 1; every already-assigned End is at least
its section's Start and at least 1; the stack holds only live indices. -/
def InvC7 (st : IdxState) (lb : Int) : Prop :=
  (∀ i, i < st.size → 1 ≤ (st.secs i).startL ∧ (st.secs i).startL ≤ lb) ∧
  (∀ i, i < st.size →
    (st.secs i).endL = 0 ∨ ((st.secs i).startL ≤ (st.secs i).endL ∧ 1 ≤ (st.secs i).endL)) ∧
  (∀ i ∈ st.stack, i < st.size)

/-- closeSections only rewrites the End field of stack members, to one
line before the closing heading; start lines, levels, and everything off
the stack are untouched, and the remaining stack is a sublist of the
original. -/
theorem closeSections_pointwise (lvl line : Int) :
    ∀ (stack : List Nat) (secs : Nat → SecState),
      (∀ i, ((closeSections secs stack lvl line).1 i).startL = (secs i).startL ∧
        ((closeSections secs stack lvl line).1 i).level = (secs i).level ∧
        ((closeSections secs stack lvl line).1 i).line = (secs i).line ∧
        ((closeSections secs stack lvl line).1 i).parent = (secs i).parent ∧
        ((closeSections secs stack lvl line).1 i).childrenIdx = (secs i).childrenIdx ∧
        (((closeSections secs stack lvl line).1 i).endL = (secs i).endL ∨
          (line > 0 ∧ ((closeSections secs stack lvl line).1 i).endL = line - 1 ∧ i ∈ stack))) ∧
      (∀ j ∈ (closeSections secs stack lvl line).2, j ∈ stack) := by
  intro stack
  induction stack with
  | nil => intro secs; simp [closeSections]
  | cons top rest ih =>
    intro secs
    rw [closeSections]
    split
    · have hrec := ih (Function.update secs top
        (if line > 0 then { secs top with endL := line - 1 } else secs top))
      constructor
      · intro i
        have h1 := (hrec.1 i)
        by_cases hi : i = top
        · subst hi
          rcases h1 with ⟨ha, hb, hc, hd, he, hf⟩
          constructor
          · rw [ha, Function.update_same]; split <;> rfl
          constructor
          · rw [hb, Function.update_same]; split <;> rfl
          constructor
          · rw [hc, Function.update_same]; split <;> rfl
          constructor
          · rw [hd, Function.update_same]; split <;> rfl
          constructor
          · rw [he, Function.update_same]; split <;> rfl
          · rcases hf with hf | hf
            · rw [hf, Function.update_same]
              split
              · right; exact ⟨by assumption, rfl, by simp⟩
              · left; rfl
            · right; exact ⟨hf.1, hf.2.1, by simp⟩
        · rcases h1 with ⟨ha, hb, hc, hd, he, hf⟩
          rw [Function.update_noteq hi] at ha hb hc hd he
          refine ⟨ha, hb, hc, hd, he, ?_⟩
          rcases hf with hf | hf
          · left; rw [hf, Function.update_noteq hi]
          · right; exact ⟨hf.1, hf.2.1, List.mem_cons_of_mem _ hf.2.2⟩
      · intro j hj
        exact List.mem_cons_of_mem _ (hrec.2 j hj)
    · constructor
      · intro i; exact ⟨rfl, rfl, rfl, rfl, rfl, Or.inl rfl⟩
      · intro j hj; exact hj

/-- One heading step preserves the C7 invariant, moving the line bound up
to the new heading's line. -/
theorem stepHeading_invC7 (st : IdxState) (ev : HeadingEv) (lb : Int)
    (hinv : InvC7 st lb) (hlb : lb < ev.line) (hpos : 1 ≤ ev.line) :
    InvC7 (stepHeading st ev) ev.line := by
  obtain ⟨hstart, hend, hstk⟩ := hinv
  have hcp := closeSections_pointwise ev.level ev.line st.stack st.secs
  set r := closeSections st.secs st.stack ev.level ev.line with hr
  have hlb1 : ∀ i ∈ st.stack, 1 ≤ lb := by
    intro i hi
    have := hstart i (hstk i hi)
    omega
  -- facts about the arena after closing
  have hsecs1 : ∀ i, i < st.size →
      (1 ≤ (r.1 i).startL ∧ (r.1 i).startL ≤ ev.line) ∧
      ((r.1 i).endL = 0 ∨ ((r.1 i).startL ≤ (r.1 i).endL ∧ 1 ≤ (r.1 i).endL)) := by
    intro i hi
    obtain ⟨ha, _, _, _, _, hf⟩ := hcp.1 i
    have hs := hstart i hi
    constructor
    · rw [ha]; omega
    · rcases hf with hf | hf
      · rw [hf, ha]
        rcases hend i hi with h | h
        · left; exact h
        · right; exact h
      · right
        rw [hf.2.1, ha]
        have := hlb1 i hf.2.2
        omega
  constructor
  · -- start bounds
    intro i hi
    simp only [stepHeading]
    by_cases hidx : i = st.size
    · subst hidx
      rcases hp : r.2.head? with _ | p
      · simp only [hp, Function.update_same]
        omega
      · have hpne : p ≠ st.size := by
          have : p ∈ r.2 := List.mem_of_mem_head? hp
          have : p ∈ st.stack := hcp.2 p this
          have := hstk p this
          omega
        simp only [hp, Function.update_noteq (Ne.symm hpne), Function.update_same]
        omega
    · have hi' : i < st.size := by
        simp only [stepHeading] at hi
        omega
      rcases hp : r.2.head? with _ | p
      · simp only [hp, Function.update_noteq hidx]
        exact (hsecs1 i hi').1
      · by_cases hip : i = p
        · subst hip
          simp only [hp, Function.update_same, Function.update_noteq hidx]
          exact (hsecs1 i hi').1
        · simp only [hp, Function.update_noteq hip, Function.update_noteq hidx]
          exact (hsecs1 i hi').1
  constructor
  · -- end bounds
    intro i hi
    simp only [stepHeading]
    by_cases hidx : i = st.size
    · subst hidx
      rcases hp : r.2.head? with _ | p
      · simp only [hp, Function.update_same]
        simp
      · have hpne : p ≠ st.size := by
          have : p ∈ r.2 := List.mem_of_mem_head? hp
          have : p ∈ st.stack := hcp.2 p this
          have := hstk p this
          omega
        simp only [hp, Function.update_noteq (Ne.symm hpne), Function.update_same]
        simp
    · have hi' : i < st.size := by
        simp only [stepHeading] at hi
        omega
      rcases hp : r.2.head? with _ | p
      · simp only [hp, Function.update_noteq hidx]
        exact (hsecs1 i hi').2
      · by_cases hip : i = p
        · subst hip
          simp only [hp, Function.update_same, Function.update_noteq hidx]
          exact (hsecs1 i hi').2
        · simp only [hp, Function.update_noteq hip, Function.update_noteq hidx]
          exact (hsecs1 i hi').2
  · -- stack validity
    intro i hi
    simp only [stepHeading] at hi ⊢
    rcases List.mem_cons.mp hi with h | h
    · omega
    · have : i ∈ st.stack := hcp.2 i h
      have := hstk i this
      omega

/-- Folding the indexer over well-ordered heading events keeps the C7
invariant, for a final bound not exceeding the last processed line. -/
theorem foldl_invC7 :
    ∀ (events : List HeadingEv) (st : IdxState) (lb : Int) (totalLines : Int),
      InvC7 st lb → lb ≤ totalLines →
      List.Pairwise (fun a b => a.line < b.line) events →
      (∀ e ∈ events, lb < e.line ∧ e.line ≤ totalLines ∧ 1 ≤ e.line) →
      ∃ lb', InvC7 (events.foldl stepHeading st) lb' ∧ lb' ≤ totalLines := by
  intro events
  induction events with
  | nil =>
    intro st lb totalLines hinv hlb _ _
    exact ⟨lb, hinv, hlb⟩
  | cons ev rest ih =>
    intro st lb totalLines hinv hlb hpw hin
    obtain ⟨hlt, hle, hpos⟩ := hin ev (by simp)
    have hstep := stepHeading_invC7 st ev lb hinv hlt hpos
    have hrest : ∀ e ∈ rest, ev.line < e.line ∧ e.line ≤ totalLines ∧ 1 ≤ e.line := by
      intro e he
      refine ⟨?_, (hin e (by simp [he])).2⟩
      exact (List.pairwise_cons.mp hpw).1 e he
    simpa using ih (stepHeading st ev) ev.line totalLines hstep hle
      (List.pairwise_cons.mp hpw).2 hrest

/-- C7: in every Document the indexer produces from well-ordered heading
events, every Section satisfies Start ≤ End: a section closed by a later
heading gets End = that heading's line - 1 (at least its own start line),
and a section never closed is closed at the document's total line count
by the cleanup pass. -/
theorem C7_section_start_le_end (events : List HeadingEv) (totalLines : Int)
    (h : LinesOk events totalLines) :
    ∀ sec ∈ buildIndexes events totalLines, sec.startL ≤ sec.endL := by
  intro sec hsec
  obtain ⟨hpw, hbounds⟩ := h
  have hinit : InvC7 initIdx 0 := by
    refine ⟨?_, ?_, ?_⟩ <;> intro i hi <;> simp [initIdx] at hi
  by_cases hTL : 0 ≤ totalLines
  case neg =>
    -- with a negative total line count there are no events at all
    -- (1 ≤ e.line ≤ totalLines is unsatisfiable), so the arena is empty
    cases events with
    | nil => simp [buildIndexes, runIndexer, initIdx] at hsec
    | cons e rest =>
      have := hbounds e (by simp)
      omega
  case pos =>
    have hfold := foldl_invC7 events initIdx 0 totalLines hinit hTL hpw ?_
    · obtain ⟨lb', hinv', hlb'⟩ := hfold
      simp only [buildIndexes, runIndexer] at hsec
      rw [List.mem_map] at hsec
      obtain ⟨i, hi, hval⟩ := hsec
      rw [List.mem_range] at hi
      obtain ⟨hstart, hend, _⟩ := hinv'
      have hs := hstart i hi
      have he := hend i hi
      subst hval
      split
      · simp only
        omega
      · rcases he with he | he <;> omega
    · intro e he
      have := hbounds e he
      omega

/-- Level of the j-th heading in a level list (0 past the end). -/
def lvlAt (lvls : List Int) (j : Nat) : Int := lvls.getD j 0

/-- The open-section stack (topmost first) after the first m headings, as
the algorithm shapes it: pushing heading m pops exactly the open sections
at level ≥ its own, which for the level-sorted stack is a filter. -/
def stackSpec (lvls : List Int) : Nat → List Nat
  | 0 => []
  | m + 1 => m :: (stackSpec lvls m).filter (fun j => decide (lvlAt lvls j < lvlAt lvls m))

/-- Visibility: j is on the stack after m headings iff nothing between j
and m reaches down to j's level. -/
theorem stackSpec_mem (lvls : List Int) :
    ∀ m j, j ∈ stackSpec lvls m ↔
      (j < m ∧ ∀ k, k < m → j < k → lvlAt lvls j < lvlAt lvls k) := by
  intro m
  induction m with
  | zero => intro j; simp [stackSpec]
  | succ m ih =>
    intro j
    simp only [stackSpec, List.mem_cons, List.mem_filter, decide_eq_true_eq, ih]
    constructor
    · rintro (rfl | ⟨⟨hjm, hvis⟩, hlt⟩)
      · exact ⟨Nat.lt_succ_self _, fun k hk hj => absurd hk (by omega)⟩
      · refine ⟨by omega, fun k hk hj => ?_⟩
        rcases Nat.lt_succ_iff_lt_or_eq.mp hk with hk' | rfl
        · exact hvis k hk' hj
        · exact hlt
    · rintro ⟨hjm, hvis⟩
      rcases Nat.lt_succ_iff_lt_or_eq.mp hjm with hj' | rfl
      · right
        exact ⟨⟨hj', fun k hk hj => hvis k (by omega) hj⟩, hvis m (Nat.lt_succ_self _) hj'⟩
      · left; rfl

/-- The stack holds strictly decreasing indices, topmost largest. -/
theorem stackSpec_sorted (lvls : List Int) :
    ∀ m, List.Pairwise (fun a b => b < a) (stackSpec lvls m) := by
  intro m
  induction m with
  | zero => simp [stackSpec]
  | succ m ih =>
    simp only [stackSpec]
    refine List.pairwise_cons.mpr ⟨?_, ih.filter _⟩
    intro b hb
    have := (stackSpec_mem lvls m b).mp (List.mem_of_mem_filter hb)
    omega

/-- Levels strictly increase down the stack: a deeper (larger-index)
member is at a strictly deeper level. -/
theorem stackSpec_level_sorted (lvls : List Int) (m : Nat) :
    List.Pairwise (fun a b => lvlAt lvls b < lvlAt lvls a) (stackSpec lvls m) := by
  refine (stackSpec_sorted lvls m).imp_of_mem ?_
  intro a b ha hb hba
  have hav := (stackSpec_mem lvls m a).mp ha
  have hbv := (stackSpec_mem lvls m b).mp hb
  exact hbv.2 a hav.1 hba

/-- dropWhile and filter agree on a predicate that is monotone along a
level-sorted stack. -/
theorem dropWhile_eq_filter_of_level_sorted (lvls : List Int) (L : Int) :
    ∀ (l : List Nat), List.Pairwise (fun a b => lvlAt lvls b < lvlAt lvls a) l →
      l.dropWhile (fun j => decide (lvlAt lvls j ≥ L)) =
        l.filter (fun j => decide (lvlAt lvls j < L)) := by
  intro l
  induction l with
  | nil => intro _; rfl
  | cons a t ih =>
    intro hp
    obtain ⟨hhead, htail⟩ := List.pairwise_cons.mp hp
    by_cases ha : lvlAt lvls a ≥ L
    · rw [List.dropWhile_cons_of_pos (by simpa using ha),
        List.filter_cons_of_neg (by simpa using not_lt.mpr ha)]
      exact ih htail
    · rw [List.dropWhile_cons_of_neg (by simpa using ha),
        List.filter_cons_of_pos (by simpa using lt_of_not_ge ha)]
      congr 1
      symm
      refine List.filter_eq_self.mpr ?_
      intro b hb
      have := hhead b hb
      simp only [decide_eq_true_eq]
      omega

/-- A dropWhile over predicates that agree on the list's members. -/
theorem dropWhile_congr_mem {α : Type} (p q : α → Bool) :
    ∀ (l : List α), (∀ x ∈ l, p x = q x) → l.dropWhile p = l.dropWhile q := by
  intro l
  induction l with
  | nil => intro _; rfl
  | cons a t ih =>
    intro h
    have ha := h a (by simp)
    by_cases hp : p a = true
    · rw [List.dropWhile_cons_of_pos hp, List.dropWhile_cons_of_pos (ha ▸ hp)]
      exact ih (fun x hx => h x (by simp [hx]))
    · have hp' := Bool.not_eq_true _ ▸ hp
      rw [List.dropWhile_cons_of_neg hp, List.dropWhile_cons_of_neg (ha ▸ hp)]

/-- closeSections leaves every level in place and reshapes the stack by
dropping the closed prefix. -/
theorem closeSections_stack (lvl line : Int) :
    ∀ (stack : List Nat) (secs : Nat → SecState),
      (∀ i, ((closeSections secs stack lvl line).1 i).level = (secs i).level) ∧
      (closeSections secs stack lvl line).2 =
        stack.dropWhile (fun i => decide ((secs i).level ≥ lvl)) := by
  intro stack
  induction stack with
  | nil => intro secs; simp [closeSections]
  | cons top rest ih =>
    intro secs
    rw [closeSections]
    split
    · rename_i htop
      set s' := if line > 0 then { secs top with endL := line - 1 } else secs top with hs'
      have hs'level : s'.level = (secs top).level := by
        rw [hs']; split <;> rfl
      have hrec := ih (Function.update secs top s')
      have hlevels : ∀ i, (Function.update secs top s' i).level = (secs i).level := by
        intro i
        by_cases hi : i = top
        · subst hi; rw [Function.update_same, hs'level]
        · rw [Function.update_noteq hi]
      constructor
      · intro i
        rw [hrec.1 i, hlevels i]
      · rw [hrec.2, List.dropWhile_cons_of_pos (by simpa using htop)]
        exact dropWhile_congr_mem _ _ rest (fun x _ => by rw [hlevels x])
    · rename_i htop
      exact ⟨fun i => rfl, by rw [List.dropWhile_cons_of_neg (by simpa using htop)]⟩

/-- The parent relation the stack algorithm implements: j is the parent of
i when j is the nearest preceding heading at a strictly shallower level —
equivalently j precedes i, is shallower, and every heading strictly
between them is at level ≥ i's level. -/
def isParent (lvls : List Int) (j i : Nat) : Bool :=
  decide (j < i) && decide (lvlAt lvls j < lvlAt lvls i) &&
    ((List.range i).all (fun k => decide (k ≤ j) || decide (lvlAt lvls i ≤ lvlAt lvls k)))

/-- isParent in terms of the stack: j is i's parent iff j is on the stack
when i arrives, is shallower than i, and is the deepest such stack
member. -/
theorem isParent_iff_stack (lvls : List Int) (j m : Nat) :
    isParent lvls j m = true ↔
      (j ∈ stackSpec lvls m ∧ lvlAt lvls j < lvlAt lvls m ∧
        ∀ k ∈ stackSpec lvls m, lvlAt lvls k < lvlAt lvls m → k ≤ j) := by
  simp only [isParent, Bool.and_eq_true, decide_eq_true_eq, List.all_eq_true,
    List.mem_range, Bool.or_eq_true]
  constructor
  · rintro ⟨⟨hjm, hlt⟩, hbetween⟩
    refine ⟨?_, hlt, ?_⟩
    · rw [stackSpec_mem]
      refine ⟨hjm, fun k hk hjk => ?_⟩
      rcases hbetween k hk with h | h
      · omega
      · omega
    · intro k hk hklt
      have hkm := ((stackSpec_mem lvls m k).mp hk).1
      by_contra hgt
      rcases hbetween k hkm with h | h
      · omega
      · omega
  · rintro ⟨hmem, hlt, hmax⟩
    obtain ⟨hjm, hvis⟩ := (stackSpec_mem lvls m j).mp hmem
    refine ⟨⟨hjm, hlt⟩, ?_⟩
    intro k hk
    by_cases hkj : k ≤ j
    · exact Or.inl hkj
    · right
      by_contra hklt
      push_neg at hklt
      -- take the deepest strictly-between heading below m's level
      set P : Nat → Prop := fun k' => j < k' ∧ lvlAt lvls k' < lvlAt lvls m with hP
      have hPk : P k := ⟨by omega, hklt⟩
      have hkb : k ≤ m - 1 := by omega
      have hstar := Nat.findGreatest_spec (P := P) hkb hPk
      have hstarle : Nat.findGreatest P (m - 1) ≤ m - 1 := Nat.findGreatest_le _
      set ks := Nat.findGreatest P (m - 1) with hks
      have hksm : ks < m := by omega
      have hksvis : ks ∈ stackSpec lvls m := by
        rw [stackSpec_mem]
        refine ⟨hksm, fun k' hk' hkk' => ?_⟩
        by_cases hP' : P k'
        · exact absurd hP' (Nat.findGreatest_is_greatest hkk' (by omega))
        · have : ¬(j < k' ∧ lvlAt lvls k' < lvlAt lvls m) := hP'
          have hjk' : j < k' := by omega
          have : lvlAt lvls m ≤ lvlAt lvls k' := by
            by_contra hcon
            exact this ⟨hjk', by omega⟩
          omega
      have := hmax ks hksvis hstar.2
      omega

/-- In a list of strictly decreasing naturals the head bounds every
member. -/
theorem head_max_of_sorted (l : List Nat) (hs : List.Pairwise (fun a b => b < a) l)
    (p : Nat) (hp : l.head? = some p) : ∀ q ∈ l, q ≤ p := by
  cases l with
  | nil => simp at hp
  | cons a t =>
    simp only [List.head?_cons, Option.some.injEq] at hp
    subst hp
    intro q hq
    rcases List.mem_cons.mp hq with rfl | hq'
    · exact le_refl _
    · exact le_of_lt ((List.pairwise_cons.mp hs).1 q hq')

/-- The C8 fold invariant: after m headings the arena records the heading
levels, the stack is the visible stack, and every live section's child
list is exactly the set of later headings it parents, in order. -/
def InvC8 (events : List HeadingEv) (m : Nat) (st : IdxState) : Prop :=
  st.size = m ∧
  st.stack = stackSpec (events.map (·.level)) m ∧
  (∀ j, j < m → (st.secs j).level = lvlAt (events.map (·.level)) j) ∧
  (∀ j, j < m → (st.secs j).childrenIdx =
    (List.range m).filter (fun i => isParent (events.map (·.level)) j i))

/-- Levels read through the map agree with the events for live indices. -/
theorem lvlAt_map (events : List HeadingEv) (m : Nat) (hm : m < events.length) :
    lvlAt (events.map (·.level)) m = (events.getD m default).level := by
  simp only [lvlAt, List.getD_eq_getElem?_getD, List.getElem?_map]
  rw [List.getElem?_eq_getElem hm]
  simp

/-- One heading step preserves the C8 invariant. -/
theorem stepHeading_invC8 (events : List HeadingEv) (m : Nat) (st : IdxState)
    (hm : m < events.length) (hinv : InvC8 events m st) :
    InvC8 events (m + 1) (stepHeading st (events.getD m default)) := by
  obtain ⟨hsize, hstack, hlevels, hchildren⟩ := hinv
  set lvls := events.map (·.level) with hlvls
  set ev := events.getD m default with hev
  have hLm : lvlAt lvls m = ev.level := lvlAt_map events m hm
  have hcs := closeSections_stack ev.level ev.line st.stack st.secs
  have hcp := closeSections_pointwise ev.level ev.line st.stack st.secs
  set r := closeSections st.secs st.stack ev.level ev.line with hr
  have hr2 : r.2 = (stackSpec lvls m).filter (fun i => decide (lvlAt lvls i < lvlAt lvls m)) := by
    rw [hcs.2, hstack]
    rw [dropWhile_congr_mem _ (fun i => decide (lvlAt lvls i ≥ lvlAt lvls m)) _ ?_]
    · exact dropWhile_eq_filter_of_level_sorted lvls (lvlAt lvls m) _
        (stackSpec_level_sorted lvls m)
    · intro x hx
      have hxm := ((stackSpec_mem lvls m x).mp hx).1
      rw [hlevels x hxm, hLm]
  have hstack1mem : ∀ p ∈ r.2, p < m ∧ p ∈ stackSpec lvls m ∧ lvlAt lvls p < lvlAt lvls m := by
    intro p hp
    rw [hr2] at hp
    have h1 := List.mem_of_mem_filter hp
    have h2 := List.of_mem_filter hp
    simp only [decide_eq_true_eq] at h2
    exact ⟨((stackSpec_mem lvls m p).mp h1).1, h1, h2⟩
  -- the parent choice is exactly the isParent relation
  have hparent_some : ∀ p, r.2.head? = some p →
      (isParent lvls p m = true ∧ ∀ j, j < m → j ≠ p → isParent lvls j m = false) := by
    intro p hp
    have hpmem := List.mem_of_mem_head? hp
    obtain ⟨hpm, hpstack, hplt⟩ := hstack1mem p hpmem
    have hsorted : List.Pairwise (fun a b => b < a) r.2 := by
      rw [hr2]
      exact (stackSpec_sorted lvls m).filter _
    have hmax := head_max_of_sorted r.2 hsorted p hp
    have hpar : isParent lvls p m = true := by
      rw [isParent_iff_stack]
      refine ⟨hpstack, hplt, ?_⟩
      intro k hk hklt
      refine hmax k ?_
      rw [hr2]
      exact List.mem_filter.mpr ⟨hk, by simpa using hklt⟩
    refine ⟨hpar, ?_⟩
    intro j hjm hjp
    by_contra hj
    rw [Bool.not_eq_false, isParent_iff_stack] at hj
    obtain ⟨hjstack, hjlt, hjmax⟩ := hj
    have hjmem : j ∈ r.2 := by
      rw [hr2]
      exact List.mem_filter.mpr ⟨hjstack, by simpa using hjlt⟩
    have h1 : j ≤ p := hmax j hjmem
    have h2 : p ≤ j := hjmax p hpstack hplt
    omega
  have hparent_none : r.2.head? = none →
      ∀ j, j < m → isParent lvls j m = false := by
    intro hp j hjm
    have hempty : r.2 = [] := List.head?_eq_none_iff.mp hp
    by_contra hj
    rw [Bool.not_eq_false, isParent_iff_stack] at hj
    obtain ⟨hjstack, hjlt, _⟩ := hj
    have : j ∈ r.2 := by
      rw [hr2]
      exact List.mem_filter.mpr ⟨hjstack, by simpa using hjlt⟩
    rw [hempty] at this
    simp at this
  -- filter over the extended range
  have hfilter_succ : ∀ j, (List.range (m + 1)).filter (fun i => isParent lvls j i) =
      (List.range m).filter (fun i => isParent lvls j i) ++
        (if isParent lvls j m then [m] else []) := by
    intro j
    rw [List.range_succ, List.filter_append]
    congr 1
    simp only [List.filter_singleton]
    split <;> simp_all
  have hnochild_m : (List.range (m + 1)).filter (fun i => isParent lvls m i) = [] := by
    refine List.filter_eq_nil_iff.mpr ?_
    intro i hi
    rw [List.mem_range] at hi
    simp only [isParent, Bool.and_eq_true, decide_eq_true_eq, Bool.not_eq_true]
    intro hc
    have := hc.1.1
    omega
  -- now discharge the four invariant components
  refine ⟨by simp [stepHeading, hsize], ?_, ?_, ?_⟩
  · -- stack shape
    simp only [stepHeading]
    rw [hsize, hr2]
    rfl
  · -- levels
    intro j hj
    simp only [stepHeading]
    rcases hp : r.2.head? with _ | p
    · simp only [hp]
      by_cases hjm : j = st.size
      · subst hjm
        rw [Function.update_same]
        rw [hsize, hLm]
      · rw [Function.update_noteq hjm]
        rw [(hcp.1 j).2.1]
        refine hlevels j ?_
        rw [hsize] at hjm
        omega
    · simp only [hp]
      have hpm := (hstack1mem p (List.mem_of_mem_head? hp)).1
      by_cases hjm : j = st.size
      · subst hjm
        rw [Function.update_noteq (by omega), Function.update_same, hsize, hLm]
      · by_cases hjp : j = p
        · subst hjp
          rw [Function.update_same]
          simp only
          rw [Function.update_noteq (by omega), (hcp.1 j).2.1]
          exact hlevels j (by omega)
        · rw [Function.update_noteq hjp, Function.update_noteq hjm, (hcp.1 j).2.1]
          refine hlevels j ?_
          rw [hsize] at hjm
          omega
  · -- children
    intro j hj
    simp only [stepHeading]
    rcases hp : r.2.head? with _ | p
    · simp only [hp]
      by_cases hjm : j = st.size
      · subst hjm
        rw [Function.update_same, hsize, hnochild_m]
      · rw [Function.update_noteq hjm]
        rw [hsize] at hjm
        have hjm' : j < m := by omega
        rw [(hcp.1 j).2.2.2.2.1, hchildren j hjm', hfilter_succ j,
          if_neg (by simp [hparent_none hp j hjm'])]
        simp
    · simp only [hp]
      have hpdata := hstack1mem p (List.mem_of_mem_head? hp)
      have hpm := hpdata.1
      obtain ⟨hpar, huniq⟩ := hparent_some p hp
      by_cases hjm : j = st.size
      · subst hjm
        rw [Function.update_noteq (by omega), Function.update_same, hsize, hnochild_m]
      · rw [hsize] at hjm
        have hjm' : j < m := by omega
        by_cases hjp : j = p
        · subst hjp
          rw [Function.update_same]
          simp only
          rw [Function.update_noteq (by omega), (hcp.1 j).2.2.2.2.1,
            hchildren j hjm', hfilter_succ j, if_pos hpar, hsize]
        · rw [Function.update_noteq hjp, Function.update_noteq (by rw [hsize]; omega),
            (hcp.1 j).2.2.2.2.1, hchildren j hjm', hfilter_succ j,
            if_neg (by simp [huniq j hjm' hjp])]
          simp

/-- The C8 invariant holds after any prefix of the heading events. -/
theorem runIndexer_invC8 (events : List HeadingEv) :
    ∀ m, m ≤ events.length →
      InvC8 events m ((events.take m).foldl stepHeading initIdx) := by
  intro m
  induction m with
  | zero =>
    intro _
    refine ⟨rfl, rfl, ?_, ?_⟩ <;> intro j hj <;> omega
  | succ m ih =>
    intro hm
    have hm' : m < events.length := by omega
    have htake : events.take (m + 1) = events.take m ++ [events.getD m default] := by
      rw [List.take_succ]
      congr 1
      rw [List.getElem?_eq_getElem hm']
      simp [List.getD_eq_getElem?_getD, List.getElem?_eq_getElem hm']
    rw [htake, List.foldl_append]
    exact stepHeading_invC8 events m _ hm' (ih (by omega))

/-- C8 amended: the children of section j are exactly the later headings i
that are strictly deeper than j and have no heading strictly between them
at a level shallower than i's — i.e. j is i's nearest preceding
shallower heading. (Not only the minimal-level deeper headings: see the
counterexample.) -/
theorem C8_children_characterised (events : List HeadingEv) (totalLines : Int)
    (j i : Nat) (hj : j < events.length) (hi : i < events.length) :
    i ∈ ((buildIndexes events totalLines).getD j emptySec).childrenIdx ↔
      (j < i ∧ (events.getD j default).level < (events.getD i default).level ∧
        ∀ k, k < i → j < k →
          (events.getD i default).level ≤ (events.getD k default).level) := by
  have hinv := runIndexer_invC8 events events.length (le_refl _)
  rw [List.take_length] at hinv
  obtain ⟨hsize, _, _, hchildren⟩ := hinv
  have hgd : (buildIndexes events totalLines).getD j emptySec =
      (let s := (runIndexer events).secs j
       if s.endL ≤ 0 then { s with endL := totalLines } else s) := by
    simp only [buildIndexes, runIndexer]
    rw [List.getD_eq_getElem?_getD, List.getElem?_map, List.getElem?_range (by rw [hsize] at *; simpa [runIndexer] using hj)]
    simp
  rw [hgd]
  have hch : ((runIndexer events).secs j).childrenIdx =
      (List.range events.length).filter (fun i => isParent (events.map (·.level)) j i) :=
    hchildren j (by rw [hsize] at *; simpa [runIndexer] using hj)
  have hsame : (let s := (runIndexer events).secs j
      if s.endL ≤ 0 then { s with endL := totalLines } else s).childrenIdx =
      ((runIndexer events).secs j).childrenIdx := by
    simp only
    split <;> rfl
  rw [hsame, hch, List.mem_filter, List.mem_range]
  simp only [isParent, Bool.and_eq_true, decide_eq_true_eq, List.all_eq_true,
    List.mem_range, Bool.or_eq_true]
  constructor
  · rintro ⟨_, ⟨hji, hlt⟩, hall⟩
    rw [lvlAt_map events j hj, lvlAt_map events i hi] at hlt
    refine ⟨hji, hlt, ?_⟩
    intro k hk hjk
    rcases hall k hk with h | h
    · omega
    · rw [lvlAt_map events i hi, lvlAt_map events k (by omega)] at h
      exact h
  · rintro ⟨hji, hlt, hbetween⟩
    refine ⟨hi, ⟨hji, ?_⟩, ?_⟩
    · rw [lvlAt_map events j hj, lvlAt_map events i hi]
      exact hlt
    · intro k hk
      by_cases hkj : k ≤ j
      · exact Or.inl hkj
      · right
        rw [lvlAt_map events i hi, lvlAt_map events k (by omega)]
        exact hbetween k hk (by omega)

/-- The claim's reading of the spec sentence, stated from its words: the
children of section j are the headings at the minimal level strictly
greater than j's level appearing after j and before the next heading at
level ≤ j's level. -/
def claimChildren (events : List HeadingEv) (j : Nat) : List Nat :=
  let n := events.length
  let lvlj := (events.getD j default).level
  let stop :=
    match (List.range n).find? (fun k =>
        decide (j < k) && decide ((events.getD k default).level ≤ lvlj)) with
    | some k => k
    | none => n
  let cands := (List.range n).filter (fun k =>
    decide (j < k) && decide (k < stop) && decide (lvlj < (events.getD k default).level))
  match (cands.map (fun k => (events.getD k default).level)).min? with
  | none => []
  | some minL => cands.filter (fun k => decide ((events.getD k default).level = minL))

/-- C8 counterexample: for the claim's own example sequence H1, H3, H2 the
indexer makes both the H3 and the H2 headings children of the H1 section,
while the claim's minimal-level reading keeps only the H2 heading. -/
theorem C8_minimal_level_children_refuted :
    ((buildIndexes [⟨1, 1⟩, ⟨3, 2⟩, ⟨2, 3⟩] 4).getD 0 emptySec).childrenIdx = [1, 2] ∧
    claimChildren [⟨1, 1⟩, ⟨3, 2⟩, ⟨2, 3⟩] 0 = [2] ∧
    ([1, 2] : List Nat) ≠ [2] := by
  refine ⟨rfl, rfl, by decide⟩

/-- C8 witness: the amended characterisation applied to the H1, H3, H2
sequence showing the H3 heading (index 1) is a child of the H1 section. -/
theorem C8_witness :
    1 ∈ ((buildIndexes [⟨1, 1⟩, ⟨3, 2⟩, ⟨2, 3⟩] 4).getD 0 emptySec).childrenIdx :=
  (C8_children_characterised [⟨1, 1⟩, ⟨3, 2⟩, ⟨2, 3⟩] 4 0 1 (by decide) (by decide)).mpr
    (by refine ⟨by decide, by decide, ?_⟩; intro k hk hjk; omega)

/-- C7 witness: the spec's example document (# A at line 1, ## B at line
3, # C at line 6, 7 lines total). -/
theorem C7_witness :
    (⟨1, 1, 1, 5, none, [1]⟩ : SecState).startL ≤ (⟨1, 1, 1, 5, none, [1]⟩ : SecState).endL :=
  C7_section_start_le_end [⟨1, 1⟩, ⟨2, 3⟩, ⟨1, 6⟩] 7
    (by
      constructor
      · decide
      · intro e he
        fin_cases he <;> constructor <;> decide)
    ⟨1, 1, 1, 5, none, [1]⟩ (by decide)

/-- One increment of the language-count map in CountCodeByLanguage. The
map contents are order-insensitive; this embedding keeps first-insertion
order and lets the iteration oracle permute it. -/
def bumpLang (acc : List (String × Int)) (lang : String) : List (String × Int) :=
  match acc with
  | [] => [(lang, 1)]
  | (l, c) :: rest => if l == lang then (l, c + 1) :: rest else (l, c) :: bumpLang rest lang

/-- CountCodeByLanguage (src/lib/operators.go lines 268-278): count code
blocks per language, folding the empty tag into "plain". -/
def CountCodeByLanguage (blocks : List CodeBlock) : List (String × Int) :=
  blocks.foldl
    (fun acc cb => bumpLang acc (if cb.language == "" then "plain" else cb.language)) []

/-- The iteration order Go chooses when ranging over the language-count
map and over the metadata map: an oracle outside the program's control.
A run of the program fixes one; Go specifies only that it enumerates
exactly the entries, i.e. some permutation. -/
structure MapIterOrder where
  langOrder : List (String × Int) → List (String × Int)
  metaOrder : List String → List String

/-- A lawful oracle enumerates exactly the map entries. -/
def MapIterOrder.Lawful (o : MapIterOrder) : Prop :=
  (∀ l, List.Perm (o.langOrder l) l) ∧ (∀ l, List.Perm (o.metaOrder l) l)

/-- The identity iteration order. -/
def ordId : MapIterOrder := ⟨id, id⟩

/-- The reversed iteration order. -/
def ordRev : MapIterOrder := ⟨List.reverse, List.reverse⟩

/-- The preview scan of ExtractPreview (src/lib/tree.go lines 133-159):
first non-empty line that is not a fence, rule, image or pure link, with
emphasis markers stripped and truncated near the character budget at a
word boundary. -/
def previewLine (lines : List String) (maxChars : Nat) : String :=
  match lines with
  | [] => ""
  | l :: rest =>
    let line := l.trim
    if line == "" || line.startsWith "```" || line.startsWith "---" then
      previewLine rest maxChars
    else if line.startsWith "![" ||
        (line.startsWith "[" && listContainsSub line.toList "](".toList) then
      previewLine rest maxChars
    else
      let cleaned := ((line.replace "**" "").replace "__" "").replace "`" ""
      if cleaned.length > maxChars then
        let truncated := cleaned.take maxChars
        let lastSpace : Int :=
          match (truncated.toList.reverse.findIdx? (fun c => c == ' ')) with
          | some k => (truncated.length : Int) - 1 - k
          | none => -1
        if lastSpace > (maxChars : Int) / 2 then
          truncated.take lastSpace.toNat ++ "..."
        else truncated ++ "..."
      else cleaned

/-- ExtractPreview (src/lib/tree.go lines 118-161): skip the heading line,
then scan the remaining content. -/
def ExtractPreview (text : String) (maxChars : Nat) : String :=
  match text.splitOn "\n" with
  | [] => ""
  | [_] => ""
  | _ :: rest =>
    let content := (String.intercalate "\n" rest).trim
    if content == "" then ""
    else previewLine (content.splitOn "\n") maxChars

/-- The "%d block(s)" meta label of the synthetic code nodes. -/
def blockMeta (count : Int) : String :=
  if count > 1 then toString count ++ " blocks" else toString count ++ " block"

/-- buildSectionTree (src/lib/tree.go lines 72-115): a section node with
its text, range and level; a preview in preview/full modes; the child
sections; and, in the default mode only, one synthetic code child per
language present directly under the section, in map-iteration order. -/
def buildSectionTreeLib (ord : MapIterOrder) (mode : String) (s : DocSection) : TreeNode :=
  match s with
  | .mk heading startL endL children codeBlocks src =>
    let preview :=
      if mode == "preview" || mode == "full" then
        ExtractPreview (DocSection.GetText (.mk heading startL endL children codeBlocks src)) 50
      else ""
    let childNodes := children.attach.map (fun c => buildSectionTreeLib ord mode c.val)
    let codeNodes :=
      if mode == "" then
        if codeBlocks.length > 0 then
          (ord.langOrder (CountCodeByLanguage codeBlocks)).map (fun lc =>
            TreeNode.mk "code" lc.1 "" 0 0 0 (blockMeta lc.2) [])
        else []
      else []
    TreeNode.mk "section" heading.text preview startL endL heading.level "" (childNodes ++ codeNodes)
decreasing_by
  have := List.sizeOf_lt_of_mem c.property
  simp only [DocSection.mk.sizeOf_spec]
  omega

/-- Document state the tree builder and executor read. The Document struct
itself (path, source, metadata, indexes) is not under src/;
Modelled from the spec: "source bytes, path, declared format, optional
metadata map, and indexes: heading-by-text map, headings-by-level map,
section-by-title map, flat and per-language code-block lists, flat
link/image/table/list collections, and a section tree", plus the flat
readable-text projection for formats without hierarchy. Maps are
association lists in insertion order. -/
structure DocV where
  path : String
  source : String
  metadata : List (String × GoValue)
  headings : List Heading
  toc : List DocSection
  allSections : List DocSection
  sectionIndex : List (String × DocSection)
  codeBlocks : List CodeBlock
  links : List Link
  images : List Image
  tables : List Table
  lists : List MList
  readableText : String

/-- countLines (src/lib/tree.go lines 164-166). -/
def DocV.countLines (d : DocV) : Int := (d.source.toList.count '\n') + 1

/-- BuildTree (src/lib/tree.go lines 45-69): path, line count and mode,
frontmatter field names in map-iteration order when metadata is present,
and one subtree per table-of-contents section. -/
def BuildTree (ord : MapIterOrder) (d : DocV) (mode : String) : TreeResult :=
  { path := d.path
    lines := d.countLines
    mode := mode
    metadata := if d.metadata.length > 0 then ord.metaOrder (d.metadata.map (·.1)) else []
    root := d.toc.map (buildSectionTreeLib ord mode) }

/-- buildSectionNode (src/mql/compiler.go lines 1263-1302), used for
`.tree` scoped to a section: like the library builder but counting the
code blocks of the section and all its descendants. -/
def buildSectionNodeMql (ord : MapIterOrder) (mode : String) (s : DocSection) : TreeNode :=
  match s with
  | .mk heading startL endL children codeBlocks src =>
    let preview :=
      if mode == "preview" || mode == "full" then
        ExtractPreview (DocSection.GetText (.mk heading startL endL children codeBlocks src)) 50
      else ""
    let childNodes := children.attach.map (fun c => buildSectionNodeMql ord mode c.val)
    let codeNodes :=
      if mode == "" then
        let cbs := DocSection.GetCodeBlocks (.mk heading startL endL children codeBlocks src) []
        if cbs.length > 0 then
          (ord.langOrder (CountCodeByLanguage cbs)).map (fun lc =>
            TreeNode.mk "code" lc.1 "" 0 0 0 (blockMeta lc.2) [])
        else []
      else []
    TreeNode.mk "section" heading.text preview startL endL heading.level "" (childNodes ++ codeNodes)
decreasing_by
  have := List.sizeOf_lt_of_mem c.property
  simp only [DocSection.mk.sizeOf_spec]
  omega

/-- buildSectionTree (src/mql/compiler.go lines 1249-1260): the TreeResult
for a `.tree` query scoped to one section. -/
def buildSectionTreeMql (ord : MapIterOrder) (s : DocSection) (mode : String) : TreeResult :=
  { path := s.heading.text
    lines := s.endL - s.startL + 1
    mode := mode
    root := [buildSectionNodeMql ord mode s]
    metadata := [] }

/-- A permutation of a list with at most one element is that list. -/
theorem perm_eq_of_short {α : Type} {l m : List α} (h : List.Perm l m)
    (hm : m.length ≤ 1) : l = m := by
  cases m with
  | nil => exact h.eq_nil
  | cons a t =>
    cases t with
    | nil => exact List.perm_singleton.mp h
    | cons b u => simp at hm

/-- Sections whose direct code blocks span at most one distinct language
(after the empty-tag-to-plain normalization), recursively. -/
inductive LangSmall : DocSection → Prop where
  | intro (s : DocSection)
      (hown : (CountCodeByLanguage s.codeBlocks).length ≤ 1)
      (hch : ∀ c ∈ s.children, LangSmall c) : LangSmall s

/-- The section subtree does not depend on the iteration order when each
section carries at most one distinct code language. -/
theorem buildSectionTreeLib_order_free (o1 o2 : MapIterOrder)
    (h1 : o1.Lawful) (h2 : o2.Lawful) (mode : String) :
    ∀ s, LangSmall s → buildSectionTreeLib o1 mode s = buildSectionTreeLib o2 mode s := by
  have main : ∀ n (s : DocSection), sizeOf s ≤ n → LangSmall s →
      buildSectionTreeLib o1 mode s = buildSectionTreeLib o2 mode s := by
    intro n
    induction n using Nat.strong_induction_on with
    | _ n ih =>
      rintro ⟨heading, startL, endL, children, codeBlocks, src⟩ hsize hsmall
      cases hsmall with
      | intro _ hown hch =>
        simp only [DocSection.codeBlocks] at hown
        simp only [DocSection.children] at hch
        simp only [buildSectionTreeLib]
        congr 2
        · apply List.map_congr_left
          intro c _
          have hmem : c.val ∈ children := c.property
          have hlt : sizeOf c.val <
              sizeOf (DocSection.mk heading startL endL children codeBlocks src) := by
            have := List.sizeOf_lt_of_mem hmem
            simp only [DocSection.mk.sizeOf_spec]
            omega
          exact ih (sizeOf c.val) (by omega) c.val (le_refl _) (hch c.val hmem)
        · by_cases hmode : (mode == "") = true
          · rw [hmode]
            by_cases hlen : codeBlocks.length > 0
            · simp only [if_pos hlen]
              rw [perm_eq_of_short (h1.1 (CountCodeByLanguage codeBlocks)) hown,
                perm_eq_of_short (h2.1 (CountCodeByLanguage codeBlocks)) hown]
            · simp only [if_neg hlen]
          · rw [Bool.not_eq_true] at hmode
            rw [hmode]
            simp
  intro s
  exact main (sizeOf s) s (le_refl _)

/-- C6 amended: the tree result does not depend on Go's map iteration
order — so two runs agree — provided the document carries at most one
frontmatter field and every section's direct code blocks span at most one
distinct language. With two or more languages under one section, or two
or more metadata fields, the iteration order is observable (see the
counterexample) and two evaluations of the same compiled query may
differ. -/
theorem C6_tree_deterministic_when_maps_small (o1 o2 : MapIterOrder)
    (h1 : o1.Lawful) (h2 : o2.Lawful) (d : DocV) (mode : String)
    (hmeta : d.metadata.length ≤ 1)
    (hlang : ∀ s ∈ d.toc, LangSmall s) :
    BuildTree o1 d mode = BuildTree o2 d mode := by
  unfold BuildTree
  have hm : (if d.metadata.length > 0 then o1.metaOrder (d.metadata.map (·.1)) else []) =
      (if d.metadata.length > 0 then o2.metaOrder (d.metadata.map (·.1)) else []) := by
    split
    · have hlen : (d.metadata.map (·.1)).length ≤ 1 := by simpa using hmeta
      rw [perm_eq_of_short (h1.2 _) hlen, perm_eq_of_short (h2.2 _) hlen]
    · rfl
  have hr : d.toc.map (buildSectionTreeLib o1 mode) = d.toc.map (buildSectionTreeLib o2 mode) :=
    List.map_congr_left (fun s hs =>
      buildSectionTreeLib_order_free o1 o2 h1 h2 mode s (hlang s hs))
  rw [hm, hr]

/-- A concrete document with two frontmatter fields (and, separately, a
two-language code block list) on which iteration order is observable. -/
def dC6 : DocV :=
  { path := "doc.md"
    source := "# A\nx\n"
    metadata := [("owner", .vstring "alice"), ("tags", .vstring "api")]
    headings := [⟨1, "A", "a", 1⟩]
    toc := []
    allSections := []
    sectionIndex := []
    codeBlocks := []
    links := []
    images := []
    tables := []
    lists := []
    readableText := "" }

/-- C6 counterexample: two lawful iteration orders (identity and reverse)
produce different `.tree` results on the same document — the frontmatter
field list and the per-language count list come out in different orders —
so evaluating the same compiled query twice is not guaranteed to produce
identical results. -/
theorem C6_two_runs_differ :
    MapIterOrder.Lawful ordId ∧ MapIterOrder.Lawful ordRev ∧
    (BuildTree ordId dC6 "").metadata = ["owner", "tags"] ∧
    (BuildTree ordRev dC6 "").metadata = ["tags", "owner"] ∧
    BuildTree ordId dC6 "" ≠ BuildTree ordRev dC6 "" ∧
    ordId.langOrder (CountCodeByLanguage [⟨"go", "x", 1⟩, ⟨"python", "y", 1⟩]) =
      [("go", 1), ("python", 1)] ∧
    ordRev.langOrder (CountCodeByLanguage [⟨"go", "x", 1⟩, ⟨"python", "y", 1⟩]) =
      [("python", 1), ("go", 1)] := by
  refine ⟨⟨fun l => List.Perm.refl l, fun l => List.Perm.refl l⟩,
    ⟨fun l => l.reverse_perm, fun l => l.reverse_perm⟩, rfl, rfl, ?_, rfl, rfl⟩
  intro h
  have hmeq := congrArg TreeResult.metadata h
  have e1 : (BuildTree ordId dC6 "").metadata = ["owner", "tags"] := rfl
  have e2 : (BuildTree ordRev dC6 "").metadata = ["tags", "owner"] := rfl
  rw [e1, e2] at hmeq
  exact absurd hmeq (by decide)

/-- A document within the deterministic fragment: one frontmatter field,
one code language. -/
def dC6small : DocV :=
  { dC6 with
    metadata := [("owner", .vstring "alice")]
    toc := [.mk ⟨2, "B", "b", 2⟩ 2 3 [] [⟨"go", "x", 1⟩] none] }

/-- C6 witness: the amended determinism theorem applied to a concrete
one-field, one-language document under the identity and reversed orders. -/
theorem C6_witness : BuildTree ordId dC6small "" = BuildTree ordRev dC6small "" :=
  C6_tree_deterministic_when_maps_small ordId ordRev
    ⟨fun l => List.Perm.refl l, fun l => List.Perm.refl l⟩
    ⟨fun l => l.reverse_perm, fun l => l.reverse_perm⟩
    dC6small "" (by decide)
    (by
      intro s hs
      simp only [dC6small, List.mem_singleton] at hs
      subst hs
      exact LangSmall.intro _ (by decide) (by intro c hc; simp [DocSection.children] at hc))

/-- The Go %T type name of a value's dynamic type, as the executor's error
messages render it. -/
def goTypeName : GoValue → String
  | .vnil => "<nil>"
  | .vbool _ => "bool"
  | .vint _ => "int"
  | .vint64 _ => "int64"
  | .vfloat _ => "float64"
  | .vstring _ => "string"
  | .vdoc => "*mq.Document"
  | .vheading _ => "*mq.Heading"
  | .vsection _ => "*mq.Section"
  | .vcode _ => "*mq.CodeBlock"
  | .vlink _ => "*mq.Link"
  | .vimage _ => "*mq.Image"
  | .vtable _ => "*mq.Table"
  | .vlist _ => "*mq.List"
  | .vheadings _ => "[]*mq.Heading"
  | .vsections _ => "[]*mq.Section"
  | .vcodes _ => "[]*mq.CodeBlock"
  | .vlinks _ => "[]*mq.Link"
  | .vimages _ => "[]*mq.Image"
  | .vtables _ => "[]*mq.Table"
  | .vlists _ => "[]*mq.List"
  | .vstrings _ => "[]string"
  | .vifaces _ => "[]interface \x7b\x7d"
  | .vmeta _ => "mq.Metadata"
  | .vtree _ => "*mq.TreeResult"
  | .vsearch _ => "*mq.SearchResults"

/-- toNumber (src/mql/compiler.go lines 816-828): int, int64, float64 and
float32 convert to a common numeric representation; nothing else does. -/
def toNumber : GoValue → Option Rat
  | .vint n => some n
  | .vint64 n => some n
  | .vfloat q => some q
  | _ => none

mutual

/-- reflect.DeepEqual on embedded values: structural equality. ListItem
part. -/
def mliEq : MListItem → MListItem → Bool
  | .mk t1 c1 ch1, .mk t2 c2 ch2 => t1 == t2 && c1 == c2 && mliListEq ch1 ch2

def mliListEq : List MListItem → List MListItem → Bool
  | [], [] => true
  | a :: as, b :: bs => mliEq a b && mliListEq as bs
  | _, _ => false

end

/-- DeepEqual on list elements. -/
def mlistEq (a b : MList) : Bool :=
  a.ordered == b.ordered && mliListEq a.items b.items

mutual

/-- DeepEqual on sections. -/
def docSecEq : DocSection → DocSection → Bool
  | .mk h1 s1 e1 ch1 cb1 src1, .mk h2 s2 e2 ch2 cb2 src2 =>
    h1 == h2 && s1 == s2 && e1 == e2 && docSecListEq ch1 ch2 && cb1 == cb2 && src1 == src2

def docSecListEq : List DocSection → List DocSection → Bool
  | [], [] => true
  | a :: as, b :: bs => docSecEq a b && docSecListEq as bs
  | _, _ => false

end

mutual

/-- DeepEqual on tree nodes. -/
def treeNodeEq : TreeNode → TreeNode → Bool
  | .mk ty1 t1 p1 s1 e1 l1 m1 ch1, .mk ty2 t2 p2 s2 e2 l2 m2 ch2 =>
    ty1 == ty2 && t1 == t2 && p1 == p2 && s1 == s2 && e1 == e2 && l1 == l2 && m1 == m2 &&
      treeNodeListEq ch1 ch2

def treeNodeListEq : List TreeNode → List TreeNode → Bool
  | [], [] => true
  | a :: as, b :: bs => treeNodeEq a b && treeNodeListEq as bs
  | _, _ => false

end

/-- DeepEqual on tree results. -/
def treeResultEq (a b : TreeResult) : Bool :=
  a.path == b.path && a.lines == b.lines && a.mode == b.mode &&
    treeNodeListEq a.root b.root && a.metadata == b.metadata

mutual

/-- reflect.DeepEqual (the fallback of equals, src/mql/compiler.go line
792) on embedded interface values: equal only when the dynamic types
match and the contents are structurally equal. The Metadata map is
compared as its association list; the embedding keeps one canonical
insertion order per document, so this coincides with map equality here. -/
def goValueEq : GoValue → GoValue → Bool
  | .vnil, .vnil => true
  | .vbool a, .vbool b => a == b
  | .vint a, .vint b => a == b
  | .vint64 a, .vint64 b => a == b
  | .vfloat a, .vfloat b => a == b
  | .vstring a, .vstring b => a == b
  | .vdoc, .vdoc => true
  | .vheading a, .vheading b => a == b
  | .vsection a, .vsection b => docSecEq a b
  | .vcode a, .vcode b => a == b
  | .vlink a, .vlink b => a == b
  | .vimage a, .vimage b => a == b
  | .vtable a, .vtable b => a == b
  | .vlist a, .vlist b => mlistEq a b
  | .vheadings a, .vheadings b => a == b
  | .vsections a, .vsections b => docSecListEq a b
  | .vcodes a, .vcodes b => a == b
  | .vlinks a, .vlinks b => a == b
  | .vimages a, .vimages b => a == b
  | .vtables a, .vtables b => a == b
  | .vlists a, .vlists b => goMListsEq a b
  | .vstrings a, .vstrings b => a == b
  | .vifaces a, .vifaces b => goValueListEq a b
  | .vmeta a, .vmeta b => goPairListEq a b
  | .vtree a, .vtree b => treeResultEq a b
  | .vsearch a, .vsearch b => a == b
  | _, _ => false

def goValueListEq : List GoValue → List GoValue → Bool
  | [], [] => true
  | a :: as, b :: bs => goValueEq a b && goValueListEq as bs
  | _, _ => false

def goPairListEq : List (String × GoValue) → List (String × GoValue) → Bool
  | [], [] => true
  | (k1, v1) :: as, (k2, v2) :: bs => k1 == k2 && goValueEq v1 v2 && goPairListEq as bs
  | _, _ => false

def goMListsEq : List MList → List MList → Bool
  | [], [] => true
  | a :: as, b :: bs => mlistEq a b && goMListsEq as bs
  | _, _ => false

end

/-- equals (src/mql/compiler.go lines 783-793): numeric comparison when
both sides convert, DeepEqual otherwise. -/
def goEquals (a b : GoValue) : Bool :=
  match toNumber a, toNumber b with
  | some na, some nb => na == nb
  | _, _ => goValueEq a b

/-- lessThan (src/mql/compiler.go lines 795-813): numbers by value,
strings lexicographically, anything else a comparison error. -/
def goLessThan (a b : GoValue) : Except GoFailure Bool :=
  match toNumber a, toNumber b with
  | some na, some nb => .ok (decide (na < nb))
  | _, _ =>
    match a, b with
    | .vstring va, .vstring vb => .ok (decide (va < vb))
    | _, _ => .error (.evalError ("Error: cannot compare " ++ goTypeName a ++ " and " ++
        goTypeName b ++ "\nHint: comparison operators work with numbers or strings"))

/-- lessEqual (src/mql/compiler.go lines 830-836). -/
def goLessEqual (a b : GoValue) : Except GoFailure Bool :=
  match goLessThan a b with
  | .error e => .error e
  | .ok lt => .ok (lt || goEquals a b)

/-- greaterThan (src/mql/compiler.go lines 838-844): the negation of
lessEqual. -/
def goGreaterThan (a b : GoValue) : Except GoFailure Bool :=
  match goLessEqual a b with
  | .error e => .error e
  | .ok le => .ok (!le)

/-- greaterEqual (src/mql/compiler.go lines 846-852): the negation of
lessThan. -/
def goGreaterEqual (a b : GoValue) : Except GoFailure Bool :=
  match goLessThan a b with
  | .error e => .error e
  | .ok lt => .ok (!lt)

/-- fmt %v rendering used by contains/startswith/endswith and the default
text extraction. Scalars render as Go prints them; composite values keep
a stable placeholder derived from the type name (their exact Go rendering
carries no weight in any claim). -/
def goFormat : GoValue → String
  | .vnil => "<nil>"
  | .vbool b => if b then "true" else "false"
  | .vint n => toString n
  | .vint64 n => toString n
  | .vfloat q => toString q
  | .vstring s => s
  | v => "<" ++ goTypeName v ++ ">"

/-- contains (src/mql/compiler.go lines 867-871). -/
def goContains (obj search : GoValue) : Except GoFailure GoValue :=
  .ok (.vbool (listContainsSub (goFormat obj).toList (goFormat search).toList))

/-- startsWith (src/mql/compiler.go lines 873-877). -/
def goStartsWith (obj pre : GoValue) : Except GoFailure GoValue :=
  .ok (.vbool ((goFormat obj).startsWith (goFormat pre)))

/-- endsWith (src/mql/compiler.go lines 879-883). -/
def goEndsWith (obj suf : GoValue) : Except GoFailure GoValue :=
  .ok (.vbool ((goFormat obj).endsWith (goFormat suf)))

/-- getLength (src/mql/compiler.go lines 885-897): reflect length of
slices, maps and strings, 0 for anything else. -/
def getLength : GoValue → Int
  | .vnil => 0
  | .vstring s => s.length
  | .vheadings hs => hs.length
  | .vsections ss => ss.length
  | .vcodes cs => cs.length
  | .vlinks ls => ls.length
  | .vimages is => is.length
  | .vtables ts => ts.length
  | .vlists ls => ls.length
  | .vstrings ss => ss.length
  | .vifaces vs => vs.length
  | .vmeta m => m.length
  | _ => 0

/-- extractText (src/mql/compiler.go lines 899-914). -/
def extractText : GoValue → String
  | .vheading h => h.text
  | .vsection s => s.GetText
  | .vcode c => c.content
  | .vlink l => l.text
  | .vstring s => s
  | v => goFormat v

/-- extractTextFromAny (src/mql/compiler.go lines 1119-1162): collections
map to a string slice, single values to their text. -/
def extractTextFromAny : GoValue → GoValue
  | .vheadings hs => .vstrings (hs.map (·.text))
  | .vsections ss => .vstrings (ss.map DocSection.GetText)
  | .vcodes cs => .vstrings (cs.map (·.content))
  | .vlinks ls => .vstrings (ls.map (·.text))
  | .vimages is => .vstrings (is.map (·.altText))
  | .vifaces vs => .vstrings (vs.map extractText)
  | v => .vstring (extractText v)

/-- getIndex (src/mql/compiler.go lines 1164-1195) on one slice kind:
integer-typed key, in-range, else an error. -/
def getIndexList {α : Type} (xs : List α) (wrap : α → GoValue) (index : GoValue) :
    Except GoFailure GoValue :=
  match index with
  | .vint n => indexAt xs wrap n
  | .vint64 n => indexAt xs wrap n
  | _ => .error (.evalError "array index must be integer")
where
  indexAt (xs : List α) (wrap : α → GoValue) (n : Int) : Except GoFailure GoValue :=
    if h : 0 ≤ n ∧ n < (xs.length : Int) then
      .ok (wrap (xs.get ⟨n.toNat, by omega⟩))
    else .error (.evalError ("index out of range: " ++ toString n))

/-- getIndex (src/mql/compiler.go lines 1164-1195): slices by integer
index, the metadata map by key (a missing key is a nil success; a
non-string key makes reflect.Value.MapIndex panic), anything else a
cannot-index error. -/
def getIndexVal (obj index : GoValue) : Except GoFailure GoValue :=
  match obj with
  | .vheadings hs => getIndexList hs .vheading index
  | .vsections ss => getIndexList ss .vsection index
  | .vcodes cs => getIndexList cs .vcode index
  | .vlinks ls => getIndexList ls .vlink index
  | .vimages is => getIndexList is .vimage index
  | .vtables ts => getIndexList ts .vtable index
  | .vlists ls => getIndexList ls .vlist index
  | .vstrings ss => getIndexList ss .vstring index
  | .vifaces vs => getIndexList vs id index
  | .vmeta m =>
    match index with
    | .vstring k =>
      match m.find? (fun p => p.1 == k) with
      | some p => .ok p.2
      | none => .ok .vnil
    | _ => .error (.panic "reflect.Value.MapIndex: key type mismatch")
  | _ => .error (.evalError ("cannot index type " ++ goTypeName obj))

/-- handlePropertyAccess (src/mql/compiler.go lines 947-1014): property
reads on a single element, with a handled flag. The code-block `lines`
read returns GetLines' value; its memoizing write is characterised in the
C5 theorems and is value-transparent (the memoized field and the computed
count agree). -/
def handlePropertyAccess (cur : GoValue) (property : String) : Option GoValue :=
  match cur with
  | .vheading h =>
    if property == "text" then some (.vstring h.text)
    else if property == "level" then some (.vint h.level)
    else if property == "id" then some (.vstring h.id)
    else none
  | .vsection s =>
    if property == "text" then some (.vstring s.GetText)
    else if property == "heading" then some (.vheading s.heading)
    else if property == "children" then some (.vsections s.children)
    else if property == "start" then some (.vint s.startL)
    else if property == "end" then some (.vint s.endL)
    else none
  | .vcode c =>
    if property == "content" || property == "text" then some (.vstring c.content)
    else if property == "language" then some (.vstring c.language)
    else if property == "lines" then some (.vint c.GetLines.1)
    else none
  | .vlink l =>
    if property == "text" then some (.vstring l.text)
    else if property == "url" then some (.vstring l.url)
    else none
  | .vimage i =>
    if property == "text" || property == "alttext" || property == "alt" then
      some (.vstring i.altText)
    else if property == "url" then some (.vstring i.url)
    else none
  | .vtable t =>
    if property == "headers" then some (.vstrings t.headers)
    else if property == "rows" then some (.vifaces (t.rows.map (fun r => .vstrings r)))
    else none
  | _ => none

/-- handleCollectionPropertyAccess (src/mql/compiler.go lines 917-945):
only section collections support `heading` and `text`. -/
def handleCollectionPropertyAccess (cur : GoValue) (property : String) : Option GoValue :=
  match cur with
  | .vsections ss =>
    if property == "heading" then some (.vheadings (ss.map DocSection.heading))
    else if property == "text" then some (.vstrings (ss.map DocSection.GetText))
    else none
  | _ => none

/-- getProperty (src/mql/compiler.go lines 655-728): typed property access
with suggestion-bearing errors; the CodeBlock case goes through the
stateful accessor of the C5 analysis (value component). -/
def getPropertyAny (obj : GoValue) (name : String) : Except GoFailure GoValue :=
  match obj with
  | .vheading h =>
    if name == "level" then .ok (.vint h.level)
    else if name == "text" then .ok (.vstring h.text)
    else if name == "id" then .ok (.vstring h.id)
    else
      let suggestion := findClosestMatch name ["level", "text", "id"]
      if suggestion != "" then
        .error (.evalError ("Error: heading has no property: ." ++ name ++
          "\nDid you mean: ." ++ suggestion ++ "?\nAvailable: .level, .text, .id"))
      else
        .error (.evalError ("Error: heading has no property: ." ++ name ++
          "\nAvailable: .level, .text, .id"))
  | .vsection s =>
    if name == "heading" then .ok (.vheading s.heading)
    else if name == "text" then .ok (.vstring s.GetText)
    else if name == "start" then .ok (.vint s.startL)
    else if name == "end" then .ok (.vint s.endL)
    else
      let suggestion := findClosestMatch name ["heading", "text", "start", "end"]
      if suggestion != "" then
        .error (.evalError ("Error: section has no property: ." ++ name ++
          "\nDid you mean: ." ++ suggestion ++ "?\nAvailable: .heading, .text, .start, .end"))
      else
        .error (.evalError ("Error: section has no property: ." ++ name ++
          "\nAvailable: .heading, .text, .start, .end"))
  | .vcode c => (getPropertyCodeBlock c name).1
  | .vlink l =>
    if name == "text" then .ok (.vstring l.text)
    else if name == "url" then .ok (.vstring l.url)
    else
      let suggestion := findClosestMatch name ["text", "url"]
      if suggestion != "" then
        .error (.evalError ("Error: link has no property: ." ++ name ++
          "\nDid you mean: ." ++ suggestion ++ "?\nAvailable: .text, .url"))
      else
        .error (.evalError ("Error: link has no property: ." ++ name ++
          "\nAvailable: .text, .url"))
  | _ =>
    .error (.evalError ("Error: cannot access property ." ++ name ++ " on type " ++
      goTypeName obj))

/-- extractIntArgs (src/mql/compiler.go lines 732-745). -/
def extractIntArgs (args : List GoValue) : List Int :=
  args.filterMap (fun a =>
    match a with
    | .vint n => some n
    | .vint64 n => some n
    | .vfloat q => some (if q < 0 then ⌈q⌉ else ⌊q⌋)
    | _ => none)

/-- extractStringArgs (src/mql/compiler.go lines 747-755). -/
def extractStringArgs (args : List GoValue) : List String :=
  args.filterMap (fun a =>
    match a with
    | .vstring s => some s
    | _ => none)

/-- formatUnknownSelectorError (src/mql/compiler.go lines 284-300). -/
def formatUnknownSelectorError (name : String) : GoFailure :=
  let knownSelectors := ["headings", "section", "sections", "code", "links", "images",
    "tables", "lists", "metadata", "owner", "tags", "priority",
    "text", "length", "tree", "search"]
  let suggestion := findClosestMatch name knownSelectors
  if suggestion != "" then
    .evalError ("Error: unknown selector: ." ++ name ++ "\nDid you mean: ." ++ suggestion ++ "?")
  else
    .evalError ("Error: unknown selector: ." ++ name ++
      "\nAvailable selectors: .headings, .section(title), .sections, .code, .links, .images, .tables, .lists, .metadata, .owner, .tags, .priority, .text, .length, .tree, .search(query)")

/-- formatUnknownFunctionError (src/mql/compiler.go lines 514-523). -/
def formatUnknownFunctionError (name : String) : GoFailure :=
  let knownFunctions := ["map", "contains", "startswith", "endswith", "length"]
  let suggestion := findClosestMatch name knownFunctions
  if suggestion != "" then
    .evalError ("Error: unknown function: " ++ name ++ "()\nDid you mean: " ++ suggestion ++ "()?")
  else
    .evalError ("Error: unknown function: " ++ name ++
      "()\nAvailable functions: map(), contains(), startswith(), endswith(), length()")

/-- Modelled from the spec: Document.GetHeadings is not under src/; per
the selector table, `headings(levels...)` returns the headings filtered
to the requested levels, or all of them with no argument. -/
def DocV.GetHeadings (d : DocV) (levels : List Int) : List Heading :=
  if levels.isEmpty then d.headings
  else d.headings.filter (fun h => levels.contains h.level)

/-- Modelled from the spec: Document.GetSection is not under src/; it is
the lookup in the section-by-title map (exact text match). -/
def DocV.GetSection (d : DocV) (title : String) : Option DocSection :=
  (d.sectionIndex.find? (fun p => p.1 == title)).map (·.2)

/-- Modelled from the spec: Document.GetCodeBlocks is not under src/; the
flat code-block list filtered by the requested languages, or all of them
with no argument. -/
def DocV.GetCodeBlocks (d : DocV) (langs : List String) : List CodeBlock :=
  if langs.isEmpty then d.codeBlocks
  else d.codeBlocks.filter (fun cb => langs.contains cb.language)

/-- Modelled from the spec: Document.GetLists is not under src/; all lists
or the ones matching the requested orderedness. -/
def DocV.GetLists (d : DocV) (ordered : Option Bool) : List MList :=
  match ordered with
  | none => d.lists
  | some b => d.lists.filter (fun l => l.ordered == b)

/-- Modelled from the spec: Document.GetOwner reads the `owner`
frontmatter field as a string. -/
def DocV.GetOwner (d : DocV) : Option String :=
  match (d.metadata.find? (fun p => p.1 == "owner")).map Prod.snd with
  | some (.vstring s) => some s
  | _ => none

/-- Modelled from the spec: Document.GetTags reads the `tags` frontmatter
field as a list of strings. -/
def DocV.GetTags (d : DocV) : List String :=
  match (d.metadata.find? (fun p => p.1 == "tags")).map Prod.snd with
  | some (.vstrings ss) => ss
  | some (.vifaces vs) => vs.filterMap (fun v => match v with | .vstring s => some s | _ => none)
  | _ => []

/-- Modelled from the spec: Document.GetPriority reads the `priority`
frontmatter field as a string (empty when absent). -/
def DocV.GetPriority (d : DocV) : String :=
  match (d.metadata.find? (fun p => p.1 == "priority")).map Prod.snd with
  | some (.vstring s) => s
  | _ => ""

/-- Modelled from the spec: Document.Title is not under src/; the search
fallback labels the match with the document title when section indexes
are empty — taken to be the first heading's text. -/
def DocV.Title (d : DocV) : String :=
  match d.headings.head? with
  | some h => h.text
  | none => ""

/-- Whitespace split, modelling strings.Fields. -/
def fieldsOf (cs : List Char) : List (List Char) :=
  ((cs.splitOnP (fun c => c == ' ' || c == '\t' || c == '\n' || c == '\r')).filter
    (fun w => !w.isEmpty))

/-- Index of the first occurrence of a sublist, modelling strings.Index. -/
def listIndexOfSub (hay needle : List Char) : Option Nat :=
  match hay with
  | [] => if needle.isEmpty then some 0 else none
  | _ :: t =>
    if needle.isPrefixOf hay then some 0
    else (listIndexOfSub t needle).map (· + 1)

/-- extractSnippet (src/lib/tree.go lines 341-370): a fixed-width window
around the first case-insensitive match, whitespace-collapsed and
ellipsis-marked on clipped sides. -/
def extractSnippet (text query : String) (contextLen : Nat) : String :=
  let tl := text.toList
  let lower := tl.map Char.toLower
  let ql := query.toList.map Char.toLower
  match listIndexOfSub lower ql with
  | none => ""
  | some idx =>
    let start : Int := (idx : Int) - contextLen
    let start := if start < 0 then 0 else start
    let e : Int := (idx : Int) + ql.length + contextLen
    let e := if e > (tl.length : Int) then (tl.length : Int) else e
    let snippet := (tl.take e.toNat).drop start.toNat
    let collapsed := String.intercalate " " ((fieldsOf snippet).map String.mk)
    let collapsed := if start > 0 then "..." ++ collapsed else collapsed
    if e < (tl.length : Int) then collapsed ++ "..." else collapsed

/-- Search (src/lib/tree.go lines 296-338): scan every section's text for
the lowercased query; emit one match per containing section; fall back to
the readable-text projection when no section was searchable. -/
def docSearch (d : DocV) (query : String) : SearchResults :=
  let queryL := query.toList.map Char.toLower
  let searchable := d.allSections.filter (fun s => s.GetText != "")
  let matchesFound := (searchable.filter (fun s =>
      (listIndexOfSub (s.GetText.toList.map Char.toLower) queryL).isSome)).map
    (fun s => SearchResult.mk d.path s.heading.text
      (toString s.startL ++ "-" ++ toString s.endL)
      (extractSnippet s.GetText query 60))
  if searchable.isEmpty then
    if (listIndexOfSub (d.readableText.toList.map Char.toLower) queryL).isSome then
      { query := query
        found := [SearchResult.mk d.path
          (if d.Title == "" then "Document" else d.Title) "n/a"
          (extractSnippet d.readableText query 60)] }
    else { query := query, found := [] }
  else { query := query, found := matchesFound }

/-- Evaluation context (EvalContext, src/mql/compiler.go lines 14-28): the
document, the map-iteration oracle of this run, and the scratch variable
map (which nothing in the executor ever writes). The mutable Current slot
is passed as an explicit argument, restored by construction. -/
structure ECtx where
  doc : DocV
  ord : MapIterOrder
  vars : List (String × GoValue)

mutual

/-- The visitor dispatch (compilerVisitor, src/mql/compiler.go): one case
per Visit* method, with the fuel bound standing in for the Go call
stack. Evaluating a nil QueryNode interface panics, as Accept would. -/
def evalNode (fuel : Nat) (ctx : ECtx) (node : QueryNode) (cur : GoValue) :
    Except GoFailure GoValue :=
  match fuel with
  | 0 => .error .outOfFuel
  | f + 1 =>
    match node with
    | .pipe l r => do
      let lv ← evalNode f ctx l cur
      evalNode f ctx r lv
    | .filter pred =>
      match cur with
      | .vnil => .error (.evalError "Error: no data to filter\nHint: Use a selector before filter, e.g., .headings | .filter(.level == 2)")
      | .vheadings hs => (filterHeadings f ctx pred hs).map .vheadings
      | .vsections ss => (filterSections f ctx pred ss).map .vsections
      | .vcodes cs => (filterCodeBlocks f ctx pred cs).map .vcodes
      | .vlinks ls => (filterLinks f ctx pred ls).map .vlinks
      | _ => .error (.evalError ("Error: cannot filter type: " ++ goTypeName cur ++
          "\nHint: filter works on collections like headings, sections, code blocks, and links"))
    | .function name args => do
      let argVals ← evalArgs f ctx args cur
      if name == "map" then
        if args.length != 1 then
          .error (.evalError "Error: map requires 1 argument\nUsage: .collection | map(.property)")
        else
          match args.head? with
          | some t => evalMapOp f ctx t cur
          | none => .error (.evalError "Error: map requires 1 argument\nUsage: .collection | map(.property)")
      else if name == "contains" then
        if argVals.length != 1 then
          .error (.evalError "Error: contains requires 1 argument\nUsage: .property | contains(\"substring\")")
        else goContains cur (argVals.headD .vnil)
      else if name == "startswith" then
        if argVals.length != 1 then
          .error (.evalError "Error: startswith requires 1 argument\nUsage: .property | startswith(\"prefix\")")
        else goStartsWith cur (argVals.headD .vnil)
      else if name == "endswith" then
        if argVals.length != 1 then
          .error (.evalError "Error: endswith requires 1 argument\nUsage: .property | endswith(\"suffix\")")
        else goEndsWith cur (argVals.headD .vnil)
      else if name == "length" then .ok (.vint (getLength cur))
      else .error (formatUnknownFunctionError name)
    | .binary l op r => do
      let lv ← evalNode f ctx l cur
      if op == "and" && !goToBool lv then pure (.vbool false)
      else if op == "or" && goToBool lv then pure (.vbool true)
      else do
        let rv ← evalNode f ctx r cur
        if op == "==" then pure (.vbool (goEquals lv rv))
        else if op == "!=" then pure (.vbool (!goEquals lv rv))
        else if op == "<" then (goLessThan lv rv).map .vbool
        else if op == "<=" then (goLessEqual lv rv).map .vbool
        else if op == ">" then (goGreaterThan lv rv).map .vbool
        else if op == ">=" then (goGreaterEqual lv rv).map .vbool
        else if op == "and" then pure (.vbool (goToBool lv && goToBool rv))
        else if op == "or" then pure (.vbool (goToBool lv || goToBool rv))
        else .error (.evalError ("Error: unknown operator: " ++ op ++
          "\nSupported operators: ==, !=, <, <=, >, >=, and, or"))
    | .unary op operand => do
      let v ← evalNode f ctx operand cur
      evalUnaryOp op v
    | .literal v => .ok v
    | .identifier name =>
      match ctx.vars.find? (fun p => p.1 == name) with
      | some p => .ok p.2
      | none => getPropertyAny cur name
    | .index objN idxN => do
      let obj ← evalNode f ctx objN cur
      let idxv ← evalNode f ctx idxN cur
      getIndexVal obj idxv
    | .slice objN sN eN => do
      let obj ← evalNode f ctx objN cur
      let sv ← match sN with
        | none => pure none
        | some n => (evalNode f ctx n cur).map some
      let ev ← match eN with
        | none => pure none
        | some n => (evalNode f ctx n cur).map some
      getSliceVal obj sv ev
    | .qnil => .error (.panic "runtime error: invalid memory address or nil pointer dereference")
    | .selector name args =>
      match cur with
      | .vnil => evalDocSelector f ctx name args cur
      | .vdoc => evalDocSelector f ctx name args cur
      | _ =>
        match handlePropertyAccess cur name with
        | some v => .ok v
        | none =>
          match handleCollectionPropertyAccess cur name with
          | some v => .ok v
          | none =>
            match cur, name == "code" with
            | .vsection s, true => do
              let argVals ← evalArgs f ctx args cur
              pure (.vcodes (s.GetCodeBlocks (extractStringArgs argVals)))
            | _, _ => evalDocSelector f ctx name args cur
termination_by structural fuel

/-- The document-scoped selector table of VisitSelector (src/mql/compiler.go
lines 149-281): arguments are evaluated eagerly, then the name is
dispatched. -/
def evalDocSelector (fuel : Nat) (ctx : ECtx) (name : String) (args : List QueryNode)
    (cur : GoValue) : Except GoFailure GoValue :=
  match fuel with
  | 0 => .error .outOfFuel
  | f + 1 => do
    let d := ctx.doc
    let argVals ← evalArgs f ctx args cur
    if name == "headings" then pure (.vheadings (d.GetHeadings (extractIntArgs argVals)))
    else if name == "section" then
      match argVals.head? with
      | none => .error (.evalError "Error: .section requires a title argument\nUsage: .section(\"Section Title\")\nHint: Use .sections to get all sections")
      | some a0 =>
        match a0 with
        | .vstring title =>
          match d.GetSection title with
          | some sec => pure (.vsection sec)
          | none => .error (.evalError ("section not found: " ++ title))
        | _ => .error (.evalError ("Error: .section requires a string title, got " ++
            goTypeName a0 ++ "\nUsage: .section(\"Section Title\")"))
    else if name == "sections" then pure (.vsections d.allSections)
    else if name == "code" then pure (.vcodes (d.GetCodeBlocks (extractStringArgs argVals)))
    else if name == "links" then pure (.vlinks d.links)
    else if name == "images" then pure (.vimages d.images)
    else if name == "tables" then pure (.vtables d.tables)
    else if name == "lists" then
      match argVals.head? with
      | some (.vbool b) => pure (.vlists (d.GetLists (some b)))
      | _ => pure (.vlists (d.GetLists none))
    else if name == "metadata" then pure (.vmeta d.metadata)
    else if name == "owner" then
      match d.GetOwner with
      | some o => pure (.vstring o)
      | none => pure (.vstring "")
    else if name == "tags" then pure (.vstrings d.GetTags)
    else if name == "priority" then pure (.vstring d.GetPriority)
    else if name == "text" then pure (extractTextFromAny cur)
    else if name == "length" then pure (.vint (getLength cur))
    else if name == "select" || name == "filter" then
      match args.head? with
      | none => .error (.evalError ("Error: ." ++ name ++ " requires a predicate\nUsage: ." ++
          name ++ "(.property == \"value\")\nExample: .headings | .filter(.level == 2)"))
      | some p => evalNode f ctx (.filter p) cur
    else if name == "tree" then
      let mode :=
        match argVals.head? with
        | some (.vstring "compact") => "compact"
        | some (.vstring "preview") => "preview"
        | some (.vstring "full") => "full"
        | _ => ""
      match cur with
      | .vsection s => pure (.vtree (buildSectionTreeMql ctx.ord s mode))
      | _ => pure (.vtree (BuildTree ctx.ord d mode))
    else if name == "search" then
      match argVals.head? with
      | none => .error (.evalError "Error: .search requires a query string\nUsage: .search(\"query\")")
      | some (.vstring q) => pure (.vsearch (docSearch d q))
      | some a0 => .error (.evalError ("Error: .search requires a string query, got " ++
          goTypeName a0 ++ "\nUsage: .search(\"query\")"))
    else .error (formatUnknownSelectorError name)
termination_by structural fuel

/-- Eager argument evaluation (src/mql/compiler.go lines 156-163 and
469-477). -/
def evalArgs (fuel : Nat) (ctx : ECtx) (args : List QueryNode) (cur : GoValue) :
    Except GoFailure (List GoValue) :=
  match fuel with
  | 0 => .error .outOfFuel
  | f + 1 =>
    match args with
    | [] => .ok []
    | a :: rest => do
      let v ← evalNode f ctx a cur
      let vs ← evalArgs f ctx rest cur
      pure (v :: vs)
termination_by structural fuel

/-- filterHeadings (src/mql/compiler.go lines 372-396): rebind the current
value to each heading, evaluate the predicate, keep the heading iff
truthy. -/
def filterHeadings (fuel : Nat) (ctx : ECtx) (pred : QueryNode) (elems : List Heading) :
    Except GoFailure (List Heading) :=
  match fuel with
  | 0 => .error .outOfFuel
  | f + 1 =>
    match elems with
    | [] => .ok []
    | x :: rest => do
      let m ← evalNode f ctx pred (.vheading x)
      let tail ← filterHeadings f ctx pred rest
      pure (if goToBool m then x :: tail else tail)
termination_by structural fuel

/-- filterSections (src/mql/compiler.go lines 399-419). -/
def filterSections (fuel : Nat) (ctx : ECtx) (pred : QueryNode) (elems : List DocSection) :
    Except GoFailure (List DocSection) :=
  match fuel with
  | 0 => .error .outOfFuel
  | f + 1 =>
    match elems with
    | [] => .ok []
    | x :: rest => do
      let m ← evalNode f ctx pred (.vsection x)
      let tail ← filterSections f ctx pred rest
      pure (if goToBool m then x :: tail else tail)
termination_by structural fuel

/-- filterCodeBlocks (src/mql/compiler.go lines 422-442). -/
def filterCodeBlocks (fuel : Nat) (ctx : ECtx) (pred : QueryNode) (elems : List CodeBlock) :
    Except GoFailure (List CodeBlock) :=
  match fuel with
  | 0 => .error .outOfFuel
  | f + 1 =>
    match elems with
    | [] => .ok []
    | x :: rest => do
      let m ← evalNode f ctx pred (.vcode x)
      let tail ← filterCodeBlocks f ctx pred rest
      pure (if goToBool m then x :: tail else tail)
termination_by structural fuel

/-- filterLinks (src/mql/compiler.go lines 445-465). -/
def filterLinks (fuel : Nat) (ctx : ECtx) (pred : QueryNode) (elems : List Link) :
    Except GoFailure (List Link) :=
  match fuel with
  | 0 => .error .outOfFuel
  | f + 1 =>
    match elems with
    | [] => .ok []
    | x :: rest => do
      let m ← evalNode f ctx pred (.vlink x)
      let tail ← filterLinks f ctx pred rest
      pure (if goToBool m then x :: tail else tail)
termination_by structural fuel

/-- The per-element map loop (mapOperation's branches, src/mql/compiler.go
lines 1024-1112), over the already-wrapped element values: collect the
transformed results. -/
def mapElems (fuel : Nat) (ctx : ECtx) (t : QueryNode) (elems : List GoValue) :
    Except GoFailure (List GoValue) :=
  match fuel with
  | 0 => .error .outOfFuel
  | f + 1 =>
    match elems with
    | [] => .ok []
    | x :: rest => do
      let v ← evalNode f ctx t x
      let vs ← mapElems f ctx t rest
      pure (v :: vs)
termination_by structural fuel

/-- mapOperation (src/mql/compiler.go lines 1017-1117): dispatch on the
collection's dynamic type; every successful branch produces a
[]interface value. -/
def evalMapOp (fuel : Nat) (ctx : ECtx) (t : QueryNode) (cur : GoValue) :
    Except GoFailure GoValue :=
  match fuel with
  | 0 => .error .outOfFuel
  | f + 1 =>
    match cur with
    | .vnil => .error (.evalError "Error: no data to map\nHint: Use a selector before map, e.g., .sections | map(.text)")
    | .vheadings hs => (mapElems f ctx t (hs.map .vheading)).map .vifaces
    | .vsections ss => (mapElems f ctx t (ss.map .vsection)).map .vifaces
    | .vcodes cs => (mapElems f ctx t (cs.map .vcode)).map .vifaces
    | .vlinks ls => (mapElems f ctx t (ls.map .vlink)).map .vifaces
    | .vimages is => (mapElems f ctx t (is.map .vimage)).map .vifaces
    | .vifaces vs => (mapElems f ctx t vs).map .vifaces
    | _ => .error (.evalError ("Error: map can only be applied to collections, got " ++
        goTypeName cur ++ "\nHint: map works on arrays of items, e.g., .headings | map(.text)"))
termination_by structural fuel

end

/-- C9: a `.section(title)` whose title the section-by-title lookup does
not resolve evaluates to the section-not-found error — never an empty
success, nil, or a crash. Stated for every document, iteration order,
variable map, title and fuel reserve. -/
theorem C9_missing_section_is_error (g : Nat) (d : DocV) (ord : MapIterOrder)
    (vars : List (String × GoValue)) (title : String)
    (hmiss : d.GetSection title = none) :
    evalNode (g + 4) ⟨d, ord, vars⟩ (.selector "section" [.literal (.vstring title)]) .vdoc =
      .error (.evalError ("section not found: " ++ title)) := by
  have h1 : evalNode (g + 4) ⟨d, ord, vars⟩
      (.selector "section" [.literal (.vstring title)]) .vdoc =
      (match d.GetSection title with
       | some sec => pure (.vsection sec)
       | none => .error (.evalError ("section not found: " ++ title))) := rfl
  rw [h1, hmiss]

/-- C9 witness: querying `.section("Missing")` on a concrete document
without that heading. -/
theorem C9_witness :
    evalNode 4 ⟨dC6, ordId, []⟩ (.selector "section" [.literal (.vstring "Missing")]) .vdoc =
      .error (.evalError "section not found: Missing") :=
  C9_missing_section_is_error 0 dC6 ordId [] "Missing" rfl

/-- An Except.map that lands in ok came from an ok. -/
theorem except_map_ok {α β γ : Type} (g : α → β) (r : Except γ α) (v : β)
    (h : r.map g = .ok v) : ∃ a, r = .ok a ∧ v = g a := by
  cases r with
  | error e => simp [Except.map] at h
  | ok a =>
    simp [Except.map] at h
    exact ⟨a, rfl, h.symm⟩

/-- A successful map step always produces a value of dynamic type
[]interface (src/mql/compiler.go mapOperation: every branch collects into
a []interface result). -/
theorem evalMapOp_ok_vifaces (f : Nat) (ctx : ECtx) (t : QueryNode) (cur v : GoValue)
    (h : evalMapOp f ctx t cur = .ok v) : ∃ l, v = .vifaces l := by
  match f with
  | 0 => simp [evalMapOp] at h
  | f + 1 =>
    cases cur <;> simp only [evalMapOp] at h <;>
      first
        | exact absurd h (by simp)
        | (obtain ⟨l, _, hv⟩ := except_map_ok _ _ _ h
           exact ⟨l, hv⟩)

/-- A successful bare map call produces a []interface value. -/
theorem evalNode_map_ok_vifaces (f : Nat) (ctx : ECtx) (t : QueryNode) (cur v : GoValue)
    (h : evalNode f ctx (.function "map" [t]) cur = .ok v) : ∃ l, v = .vifaces l := by
  match f with
  | 0 =>
    have h0 : (Except.error GoFailure.outOfFuel : Except GoFailure GoValue) = .ok v := h
    exact Except.noConfusion h0
  | f + 1 =>
    have h' : Except.bind (evalArgs f ctx [t] cur)
        (fun _ => evalMapOp f ctx t cur) = .ok v := h
    cases ha : evalArgs f ctx [t] cur with
    | error e =>
      rw [ha] at h'
      simp [Except.bind] at h'
    | ok l =>
      rw [ha] at h'
      simp only [Except.bind] at h'
      exact evalMapOp_ok_vifaces f ctx t cur v h'

/-- Evaluation never succeeds with zero fuel. -/
theorem evalNode_zero_fuel (ctx : ECtx) (node : QueryNode) (cur v : GoValue)
    (h : evalNode 0 ctx node cur = .ok v) : False := by
  have h0 : (Except.error GoFailure.outOfFuel : Except GoFailure GoValue) = .ok v := h
  exact Except.noConfusion h0

/-- C10: piping the output of a map step into a filter always fails. The
pipeline as a whole always evaluates to some error, and whenever the map
step itself succeeds, the error is precisely the cannot-filter-type error
for the []interface collection that map produces — filter's type switch
accepts only heading, section, code-block and link collections. -/
theorem C10_map_then_filter_errors (f : Nat) (ctx : ECtx) (t pred : QueryNode)
    (cur : GoValue) :
    (∃ e, evalNode (f + 1) ctx (.pipe (.function "map" [t]) (.filter pred)) cur = .error e) ∧
    (∀ v, evalNode f ctx (.function "map" [t]) cur = .ok v →
      evalNode (f + 1) ctx (.pipe (.function "map" [t]) (.filter pred)) cur =
        .error (.evalError ("Error: cannot filter type: []interface \x7b\x7d\nHint: filter works on collections like headings, sections, code blocks, and links"))) := by
  have hpipe : evalNode (f + 1) ctx (.pipe (.function "map" [t]) (.filter pred)) cur =
      Except.bind (evalNode f ctx (.function "map" [t]) cur)
        (fun lv => evalNode f ctx (.filter pred) lv) := rfl
  have hok : ∀ v, evalNode f ctx (.function "map" [t]) cur = .ok v →
      evalNode (f + 1) ctx (.pipe (.function "map" [t]) (.filter pred)) cur =
        .error (.evalError ("Error: cannot filter type: []interface \x7b\x7d\nHint: filter works on collections like headings, sections, code blocks, and links")) := by
    intro v hm
    obtain ⟨l, rfl⟩ := evalNode_map_ok_vifaces f ctx t cur v hm
    have hf : f ≠ 0 := fun h0 => evalNode_zero_fuel ctx _ cur _ (h0 ▸ hm)
    obtain ⟨f', rfl⟩ : ∃ f', f = f' + 1 := ⟨f - 1, by omega⟩
    rw [hpipe, hm]
    simp only [Except.bind]
    rfl
  refine ⟨?_, hok⟩
  cases hm : evalNode f ctx (.function "map" [t]) cur with
  | error e =>
    refine ⟨e, ?_⟩
    rw [hpipe, hm]
    simp [Except.bind]
  | ok v =>
    exact ⟨_, hok v hm⟩

/-- C10 witness: mapping a one-heading collection through the constant
transform 1 succeeds, and filtering its output fails with the
cannot-filter-type error. -/
theorem C10_witness :
    evalNode 5 ⟨dC6, ordId, []⟩
      (.pipe (.function "map" [.literal (.vint64 1)]) (.filter (.literal (.vbool true))))
      (.vheadings [⟨1, "A", "a", 1⟩]) =
      .error (.evalError ("Error: cannot filter type: []interface \x7b\x7d\nHint: filter works on collections like headings, sections, code blocks, and links")) :=
  (C10_map_then_filter_errors 4 ⟨dC6, ordId, []⟩ (.literal (.vint64 1))
    (.literal (.vbool true)) (.vheadings [⟨1, "A", "a", 1⟩])).2
    (.vifaces [.vint64 1]) (by rfl)

/-- C4 counterexample: the bare function-call form `map()` with zero
arguments parses successfully (parseFunction has usage checks only for
select and filter), producing a zero-argument Function node whose
missing-argument error surfaces only at evaluation time. -/
theorem C4_bare_map_zero_args_parses :
    ParseString "map()" = .ok (.function "map" []) ∧
    evalNode 2 ⟨dC6, ordId, []⟩ (.function "map" []) .vdoc =
      .error (.evalError "Error: map requires 1 argument\nUsage: .collection | map(.property)") :=
  ⟨rfl, rfl⟩

/-- C4 amended: zero-argument `select`, `filter` and `map` in the dotted
selector form, and zero-argument bare `select` and `filter`, are parse
errors carrying a literal usage example; parseSelector never emits a
zero-argument map node; but bare `map()` is NOT a parse error — its
zero-argument check is deferred to evaluation, which rejects it with a
usage-example evaluation error. -/
theorem C4_zero_arg_selector_behaviour :
    ParseString ".select()" = .error "parse error at line 1, column 10: .select requires a predicate argument\nUsage: .select(.property == \"value\")" ∧
    ParseString ".filter()" = .error "parse error at line 1, column 10: .filter requires a predicate argument\nUsage: .filter(.property == \"value\")" ∧
    ParseString ".map()" = .error "parse error at line 1, column 7: map requires a transformation argument\nUsage: .collection | map(.property)" ∧
    ParseString "select()" = .error "parse error at line 1, column 9: select requires a predicate argument\nUsage: select(.property == \"value\")" ∧
    ParseString "filter()" = .error "parse error at line 1, column 9: filter requires a predicate argument\nUsage: filter(.property == \"value\")" ∧
    (∀ f ts pos args p', parseSelector f ts pos = (.ok (.function "map" args), p') →
      args ≠ []) ∧
    (∀ f ctx cur, evalNode (f + 2) ctx (.function "map" []) cur =
      .error (.evalError "Error: map requires 1 argument\nUsage: .collection | map(.property)")) := by
  refine ⟨rfl, rfl, rfl, rfl, rfl, ?_, fun f ctx cur => rfl⟩
  intro f ts pos args p' h hargs
  subst hargs
  match f with
  | 0 =>
    have h0 : ((Except.error "fuel exhausted" : Except String QueryNode), pos) =
        (.ok (.function "map" []), p') := h
    simp at h0
  | f + 1 =>
    simp only [parseSelector] at h
    split at h
    · simp at h
    · split at h
      · split at h
        · simp at h
        · split at h
          · split at h
            · simp at h
            · simp at h
          · split at h
            · split at h
              · simp at h
              · simp at h
                exact absurd h.1 (by assumption)
            · simp at h
      · simp at h

/-- C4 witness: on the token stream of `.map(1)` the selector parse
succeeds with one argument, so by the amended theorem the argument list
is nonempty. -/
theorem C4_witness :
    ([QueryNode.literal (GoValue.vint64 1)] : List QueryNode) ≠ [] :=
  C4_zero_arg_selector_behaviour.2.2.2.2.2.1 9
    [⟨.tdot, ".", 1, 1⟩, ⟨.tident, "map", 1, 2⟩, ⟨.tlparen, "(", 1, 5⟩,
     ⟨.tnumber, "1", 1, 6⟩, ⟨.trparen, ")", 1, 7⟩, ⟨.teof, "", 1, 8⟩] 0
    [.literal (.vint64 1)] 5 (by rfl)
